import Mathlib

/-!
Verification of the bcoin worker packet protocol (workers/packets.js).

Byte sequences are modelled as lists of natural numbers (each byte < 256).
Writers are pure functions producing byte lists; readers are functions
from a byte list to an optional (value, remaining-bytes) pair, where
none models a framing error (the reader would run past the end of the
buffer). Each packet's fromRaw ignores any bytes left over after its
fields, so the top-level decoder drops the remainder, exactly as the
source does.

The primitive codec (utils/encoding.js, utils/reader.js) and the
transaction / coin-view / keyring / script / witness codecs live outside
the provided sources; they are modelled from the spec where needed, with
doc comments marking each such definition.
-/

namespace Packets

set_option maxRecDepth 10000

/-- Bytes are lists of naturals; a well-formed byte is below 256. -/
abbrev Bytes := List Nat

/-- Little-endian value of a byte list. -/
def natOfLE : Bytes → Nat
  | [] => 0
  | b :: bs => b + 256 * natOfLE bs

/-- Modelled from the spec: little-endian fixed-width encoder of the binary
primitive codec (utils/encoding.js, not under the provided sources). -/
def bytesLE : Nat → Nat → Bytes
  | 0, _ => []
  | w + 1, v => v % 256 :: bytesLE w (v / 256)

/-- Modelled from the spec: fixed-size read of the binary primitive codec;
fails when fewer than n bytes remain (a framing error, spec section 7). -/
def readBytes (n : Nat) (data : Bytes) : Option (Bytes × Bytes) :=
  if n ≤ data.length then some (data.take n, data.drop n) else none

/-- Modelled from the spec: fixed-width little-endian unsigned read. -/
def readULE (w : Nat) (data : Bytes) : Option (Nat × Bytes) :=
  (readBytes w data).map fun p => (natOfLE p.1, p.2)

def readU8 : Bytes → Option (Nat × Bytes) := readULE 1

def readU16 : Bytes → Option (Nat × Bytes) := readULE 2

def readU32 : Bytes → Option (Nat × Bytes) := readULE 4

def readU64 : Bytes → Option (Nat × Bytes) := readULE 8

/-- Signed interpretation of a 32-bit unsigned value (two's complement). -/
def toSigned32 (n : Nat) : Int := if n < 2 ^ 31 then (n : Int) else (n : Int) - 2 ^ 32

/-- Modelled from the spec: signed 32-bit read (reader.read32). -/
def read32 (data : Bytes) : Option (Int × Bytes) :=
  (readULE 4 data).map fun p => (toSigned32 p.1, p.2)

/-- Modelled from the spec: signed 32-bit write as the two's-complement bit
pattern in a fixed 4-byte field (spec section 4.1). -/
def write32 (i : Int) : Bytes := bytesLE 4 (i % 2 ^ 32).toNat

/-- Modelled from the spec: unsigned 32-bit write; negative inputs wrap to
their unsigned bit pattern exactly as the JavaScript writer does. -/
def writeU32 (i : Int) : Bytes := bytesLE 4 (i % 2 ^ 32).toNat

/-- Modelled from the spec: single byte write. -/
def writeU8 (n : Nat) : Bytes := bytesLE 1 n

/-- Modelled from the spec: size of a variable-length integer
(encoding.sizeVarint); must equal the byte count writeVarint emits. -/
def sizeVarint (n : Nat) : Nat :=
  if n < 0xfd then 1 else if n ≤ 0xffff then 3 else if n ≤ 0xffffffff then 5 else 9

/-- Modelled from the spec: Bitcoin-style compact variable-length integer
writer of the binary primitive codec. -/
def writeVarint (n : Nat) : Bytes :=
  if n < 0xfd then [n]
  else if n ≤ 0xffff then 0xfd :: bytesLE 2 n
  else if n ≤ 0xffffffff then 0xfe :: bytesLE 4 n
  else 0xff :: bytesLE 8 n

/-- Modelled from the spec: variable-length integer reader. -/
def readVarint (data : Bytes) : Option (Nat × Bytes) :=
  match data with
  | [] => none
  | b :: rest =>
      if b < 0xfd then some (b, rest)
      else if b = 0xfd then readU16 rest
      else if b = 0xfe then readU32 rest
      else readU64 rest

/-- Modelled from the spec: size of a length-prefixed byte string. -/
def sizeVarBytes (bs : Bytes) : Nat := sizeVarint bs.length + bs.length

/-- Modelled from the spec: length-prefixed byte string writer. -/
def writeVarBytes (bs : Bytes) : Bytes := writeVarint bs.length ++ bs

/-- Modelled from the spec: length-prefixed byte string reader; fails when
fewer bytes remain than the length prefix declares. -/
def readVarBytes (data : Bytes) : Option (Bytes × Bytes) :=
  (readVarint data).bind fun p => readBytes p.1 p.2

/-- Strings travel as their UTF-8 bytes; the codec treats them as opaque
length-prefixed byte strings, so the model carries the byte list. -/
def sizeVarString (s : Bytes) : Nat := sizeVarBytes s

def writeVarString (s : Bytes) : Bytes := writeVarBytes s

def readVarString (data : Bytes) : Option (Bytes × Bytes) := readVarBytes data

/-- Reads a fixed count of items with a given element reader. -/
def readCount {α : Type} (r : Bytes → Option (α × Bytes)) :
    Nat → Bytes → Option (List α × Bytes)
  | 0, data => some ([], data)
  | n + 1, data =>
      (r data).bind fun p => (readCount r n p.2).map fun q => (p.1 :: q.1, q.2)

/-- Well-formed byte string: realistic length and true bytes. -/
def ByteOK (bs : Bytes) : Prop := bs.length < 2 ^ 64 ∧ ∀ b ∈ bs, b < 256

instance : DecidablePred ByteOK := fun bs => by
  unfold ByteOK; infer_instance

/-- Well-formed optional byte string (absent is fine). -/
def OptByteOK : Option Bytes → Prop
  | none => True
  | some t => ByteOK t

instance : DecidablePred OptByteOK := fun o =>
  match o with
  | none => inferInstanceAs (Decidable True)
  | some t => inferInstanceAs (Decidable (ByteOK t))

/-! Sub-codecs used by packet payloads. The script, witness, transaction,
coin-view and keyring classes live in repository files not under the
provided sources; their wire formats are modelled from the spec as
self-delimiting length-prefixed encodings (spec sections 3, 4.1, 8). -/

/-- Script: carried on the wire as its length-prefixed raw bytes (spec
section 8: the script's length-prefixed bytes). -/
structure Script where
  raw : Bytes
deriving DecidableEq, Repr

/-- Modelled from the spec: Script.toWriter (lib/script/script is not under
the provided sources) writes the script as a length-prefixed byte string. -/
def Script.toWriter (s : Script) : Bytes := writeVarBytes s.raw

/-- Modelled from the spec: Script.getVarSize. -/
def Script.getVarSize (s : Script) : Nat := sizeVarBytes s.raw

/-- Modelled from the spec: Script.fromReader. -/
def Script.fromReader (data : Bytes) : Option (Script × Bytes) :=
  (readVarBytes data).map fun p => (⟨p.1⟩, p.2)

def Script.OK (s : Script) : Prop := ByteOK s.raw

/-- Witness: the segregated stack items attached to an input. -/
structure Witness where
  items : List Bytes
deriving DecidableEq, Repr

/-- Modelled from the spec: Witness.toWriter (lib/script/witness is not
under the provided sources) writes a count followed by each stack item as a
length-prefixed byte string. -/
def Witness.toWriter (w : Witness) : Bytes :=
  writeVarint w.items.length ++ (w.items.map writeVarBytes).flatten

/-- Modelled from the spec: Witness.getVarSize. -/
def Witness.getVarSize (w : Witness) : Nat :=
  sizeVarint w.items.length + (w.items.map sizeVarBytes).sum

/-- Modelled from the spec: Witness.fromReader. -/
def Witness.fromReader (data : Bytes) : Option (Witness × Bytes) :=
  (readVarint data).bind fun p =>
    (readCount readVarBytes p.1 p.2).map fun q => (⟨q.1⟩, q.2)

def Witness.OK (w : Witness) : Prop :=
  w.items.length < 2 ^ 64 ∧ ∀ i ∈ w.items, ByteOK i

/-- Immutable transaction as carried by Verify/VerifyInput packets. Its own
codec (lib/primitives/tx) is outside the provided sources, so its wire form
is abstracted to one opaque self-delimiting block. -/
structure TX where
  raw : Bytes
deriving DecidableEq, Repr

/-- Modelled from the spec: TX.toWriter (lib/primitives/tx is not under the
provided sources); the transaction travels as a self-delimiting block,
abstracted here as a length-prefixed byte string per spec section 4.1. -/
def TX.toWriter (t : TX) : Bytes := writeVarBytes t.raw

/-- Modelled from the spec: TX.getSize. -/
def TX.getSize (t : TX) : Nat := sizeVarBytes t.raw

/-- Modelled from the spec: TX.fromReader. -/
def TX.fromReader (data : Bytes) : Option (TX × Bytes) :=
  (readVarBytes data).map fun p => (⟨p.1⟩, p.2)

def TX.OK (t : TX) : Prop := ByteOK t.raw

/-- Coin-view: the set of previous outputs a transaction references,
abstracted to one opaque self-delimiting block (lib/coins/coinview is not
under the provided sources). -/
structure CoinView where
  raw : Bytes
deriving DecidableEq, Repr

/-- Modelled from the spec: CoinView.toWriter. -/
def CoinView.toWriter (v : CoinView) : Bytes := writeVarBytes v.raw

/-- Modelled from the spec: CoinView.getSize. -/
def CoinView.getSize (v : CoinView) : Nat := sizeVarBytes v.raw

/-- Modelled from the spec: CoinView.fromReader. -/
def CoinView.fromReader (data : Bytes) : Option (CoinView × Bytes) :=
  (readVarBytes data).map fun p => (⟨p.1⟩, p.2)

def CoinView.OK (v : CoinView) : Prop := ByteOK v.raw

/-- Keyring: a signer's key material bundle, abstracted to one opaque
self-delimiting block (lib/primitives/keyring is not under the provided
sources). -/
structure KeyRing where
  raw : Bytes
deriving DecidableEq, Repr

/-- Modelled from the spec: KeyRing.toWriter. -/
def KeyRing.toWriter (k : KeyRing) : Bytes := writeVarBytes k.raw

/-- Modelled from the spec: KeyRing.getSize. -/
def KeyRing.getSize (k : KeyRing) : Nat := sizeVarBytes k.raw

/-- Modelled from the spec: KeyRing.fromReader. -/
def KeyRing.fromReader (data : Bytes) : Option (KeyRing × Bytes) :=
  (readVarBytes data).map fun p => (⟨p.1⟩, p.2)

def KeyRing.OK (k : KeyRing) : Prop := ByteOK k.raw

/-- Transaction input, reduced to the two fields the packet layer touches
(inject overwrites script and witness, all other input fields are opaque to
this protocol). -/
structure Input where
  script : Script
  witness : Witness
deriving DecidableEq, Repr

def Input.OK (i : Input) : Prop := i.script.OK ∧ i.witness.OK

/-- Modelled from the spec: the wire form of one input inside a mutable
transaction, a script followed by a witness, each self-delimiting. -/
def Input.toWriter (i : Input) : Bytes := i.script.toWriter ++ i.witness.toWriter

/-- Modelled from the spec: reader for one input. -/
def Input.fromReader (data : Bytes) : Option (Input × Bytes) :=
  (Script.fromReader data).bind fun p =>
    (Witness.fromReader p.2).map fun q => (⟨p.1, q.1⟩, q.2)

/-- Mutable transaction (MTX) as carried by Sign/SignInput packets. The
inputs are explicit because the response injection step mutates them; the
remaining transaction fields are abstracted to one opaque block
(lib/primitives/mtx is not under the provided sources). The coin-view a
live MTX carries alongside (this.tx.view) is serialized only by
SignPacket and is modelled there as that packet's view field. -/
structure MTX where
  inputs : List Input
  rest : Bytes
deriving DecidableEq, Repr

/-- Modelled from the spec: MTX.toWriter writes the input count, each
input, then the abstracted remainder of the transaction. -/
def MTX.toWriter (t : MTX) : Bytes :=
  writeVarint t.inputs.length ++ (t.inputs.map Input.toWriter).flatten ++
    writeVarBytes t.rest

/-- Modelled from the spec: MTX.getSize. -/
def MTX.getSize (t : MTX) : Nat :=
  sizeVarint t.inputs.length +
    (t.inputs.map fun i => i.script.getVarSize + i.witness.getVarSize).sum +
    sizeVarBytes t.rest

/-- Modelled from the spec: MTX.fromReader (the attached view is read
separately, as in the source packets). -/
def MTX.fromReader (data : Bytes) : Option (MTX × Bytes) :=
  (readVarint data).bind fun p =>
    (readCount Input.fromReader p.1 p.2).bind fun q =>
      (readVarBytes q.2).map fun r => (⟨q.1, r.1⟩, r.2)

def MTX.OK (t : MTX) : Prop :=
  t.inputs.length < 2 ^ 64 ∧ (∀ i ∈ t.inputs, i.OK) ∧ ByteOK t.rest

/-- Output used as the single coin of VerifyInput/SignInput packets: a
value and a script (the packet serializes exactly these two fields). -/
structure Output where
  value : Nat
  script : Script
deriving DecidableEq, Repr

def Output.OK (o : Output) : Prop := o.value < 2 ^ 64 ∧ o.script.OK

/-! The 20 packet variants. Each structure carries the payload fields of
the corresponding constructor in workers/packets.js. The identity field is
assigned by the shared generator (modelled separately below) and is not
part of the payload a packet serializes, so it is not a structure field.
Every fromRaw in the source builds a fresh packet and ignores bytes left
after its fields; each fromReader below returns the remainder so the
lemmas can compose, and the dispatch discards it just as fromRaw does. -/

/-- EventPacket: an ordered list of JSON-encodable items carried as one
length-prefixed JSON text blob. JSON encode/decode is a consumed external
capability (spec section 6), so the model carries the JSON text itself. -/
structure EventPacket where
  json : Bytes
deriving DecidableEq, Repr

def EventPacket.getSize (p : EventPacket) : Nat := sizeVarString p.json

def EventPacket.toWriter (p : EventPacket) : Bytes := writeVarString p.json

def EventPacket.fromReader (data : Bytes) : Option (EventPacket × Bytes) :=
  (readVarString data).map fun q => (⟨q.1⟩, q.2)

def EventPacket.OK (p : EventPacket) : Prop := ByteOK p.json

/-- LogPacket: one length-prefixed text string. -/
structure LogPacket where
  text : Bytes
deriving DecidableEq, Repr

def LogPacket.getSize (p : LogPacket) : Nat := sizeVarString p.text

def LogPacket.toWriter (p : LogPacket) : Bytes := writeVarString p.text

def LogPacket.fromReader (data : Bytes) : Option (LogPacket × Bytes) :=
  (readVarString data).map fun q => (⟨q.1⟩, q.2)

def LogPacket.OK (p : LogPacket) : Prop := ByteOK p.text

/-- Error object wrapped by Error/ErrorResult packets: message and stack
are strings, the type tag may be absent (a plain Error has none); the
writer coerces an absent or empty type to the empty string. -/
structure ErrObj where
  message : Bytes
  stack : Bytes
  type : Option Bytes
deriving DecidableEq, Repr

def ErrObj.typeText (e : ErrObj) : Bytes := e.type.getD []

def ErrObj.OK (e : ErrObj) : Prop :=
  ByteOK e.message ∧ ByteOK e.stack ∧ OptByteOK e.type

/-- ErrorPacket: reported exception (command 2). -/
structure ErrorPacket where
  error : ErrObj
deriving DecidableEq, Repr

def ErrorPacket.getSize (p : ErrorPacket) : Nat :=
  sizeVarString p.error.message + sizeVarString p.error.stack +
    sizeVarString p.error.typeText

def ErrorPacket.toWriter (p : ErrorPacket) : Bytes :=
  writeVarString p.error.message ++ writeVarString p.error.stack ++
    writeVarString p.error.typeText

def ErrorPacket.fromReader (data : Bytes) : Option (ErrorPacket × Bytes) :=
  (readVarString data).bind fun m =>
    (readVarString m.2).bind fun s =>
      (readVarString s.2).map fun t => (⟨⟨m.1, s.1, some t.1⟩⟩, t.2)

def ErrorPacket.OK (p : ErrorPacket) : Prop := p.error.OK

/-- ErrorResultPacket: call-result failure (command 3), same shape as
ErrorPacket. -/
structure ErrorResultPacket where
  error : ErrObj
deriving DecidableEq, Repr

def ErrorResultPacket.getSize (p : ErrorResultPacket) : Nat :=
  sizeVarString p.error.message + sizeVarString p.error.stack +
    sizeVarString p.error.typeText

def ErrorResultPacket.toWriter (p : ErrorResultPacket) : Bytes :=
  writeVarString p.error.message ++ writeVarString p.error.stack ++
    writeVarString p.error.typeText

def ErrorResultPacket.fromReader (data : Bytes) :
    Option (ErrorResultPacket × Bytes) :=
  (readVarString data).bind fun m =>
    (readVarString m.2).bind fun s =>
      (readVarString s.2).map fun t => (⟨⟨m.1, s.1, some t.1⟩⟩, t.2)

def ErrorResultPacket.OK (p : ErrorResultPacket) : Prop := p.error.OK

/-- VerifyPacket: transaction, coin-view, signed 32-bit flags where null
stands for the default flags and travels as the bit pattern of -1. -/
structure VerifyPacket where
  tx : TX
  view : CoinView
  flags : Option Int
deriving DecidableEq, Repr

def VerifyPacket.getSize (p : VerifyPacket) : Nat :=
  p.tx.getSize + p.view.getSize + 4

def VerifyPacket.toWriter (p : VerifyPacket) : Bytes :=
  p.tx.toWriter ++ p.view.toWriter ++ write32 (p.flags.getD (-1))

def VerifyPacket.fromReader (data : Bytes) : Option (VerifyPacket × Bytes) :=
  (TX.fromReader data).bind fun t =>
    (CoinView.fromReader t.2).bind fun v =>
      (read32 v.2).map fun f =>
        (⟨t.1, v.1, if f.1 = -1 then none else some f.1⟩, f.2)

def flagsOK : Option Int → Prop
  | none => True
  | some f => -(2 ^ 31) ≤ f ∧ f < 2 ^ 31

instance : DecidablePred flagsOK := fun o =>
  match o with
  | none => inferInstanceAs (Decidable True)
  | some f => inferInstanceAs (Decidable (-(2 ^ 31) ≤ f ∧ f < 2 ^ 31))

def VerifyPacket.OK (p : VerifyPacket) : Prop :=
  p.tx.OK ∧ p.view.OK ∧ flagsOK p.flags

/-- VerifyResultPacket: a single boolean result byte. -/
structure VerifyResultPacket where
  value : Bool
deriving DecidableEq, Repr

def VerifyResultPacket.getSize (_ : VerifyResultPacket) : Nat := 1

def VerifyResultPacket.toWriter (p : VerifyResultPacket) : Bytes :=
  writeU8 (if p.value then 1 else 0)

def VerifyResultPacket.fromReader (data : Bytes) :
    Option (VerifyResultPacket × Bytes) :=
  (readU8 data).map fun b => (⟨b.1 == 1⟩, b.2)

def VerifyResultPacket.OK (_ : VerifyResultPacket) : Prop := True

/-- SignPacket: mutable transaction, its attached coin-view (this.tx.view
in the source), signing keyrings, sighash type byte. -/
structure SignPacket where
  tx : MTX
  view : CoinView
  rings : List KeyRing
  type : Nat
deriving DecidableEq, Repr

def SignPacket.getSize (p : SignPacket) : Nat :=
  p.tx.getSize + p.view.getSize + sizeVarint p.rings.length +
    (p.rings.map KeyRing.getSize).sum + 1

def SignPacket.toWriter (p : SignPacket) : Bytes :=
  p.tx.toWriter ++ p.view.toWriter ++ writeVarint p.rings.length ++
    (p.rings.map KeyRing.toWriter).flatten ++ writeU8 p.type

def SignPacket.fromReader (data : Bytes) : Option (SignPacket × Bytes) :=
  (MTX.fromReader data).bind fun t =>
    (CoinView.fromReader t.2).bind fun v =>
      (readVarint v.2).bind fun n =>
        (readCount KeyRing.fromReader n.1 n.2).bind fun rs =>
          (readU8 rs.2).map fun ty => (⟨t.1, v.1, rs.1, ty.1⟩, ty.2)

def SignPacket.OK (p : SignPacket) : Prop :=
  p.tx.OK ∧ p.view.OK ∧ p.rings.length < 2 ^ 64 ∧ (∀ r ∈ p.rings, r.OK) ∧
    p.type < 256

/-- SignResultPacket: total signed count plus per-input script/witness
pairs. Its toWriter asserts equal array lengths before writing; the model
writes the zipped pairs, which coincides with the indexed loop exactly on
packets satisfying that assertion (part of OK below). -/
structure SignResultPacket where
  total : Nat
  script : List Script
  witness : List Witness
deriving DecidableEq, Repr

def SignResultPacket.getSize (p : SignResultPacket) : Nat :=
  sizeVarint p.total + sizeVarint p.script.length +
    ((p.script.zip p.witness).map fun q =>
      q.1.getVarSize + q.2.getVarSize).sum

def SignResultPacket.toWriter (p : SignResultPacket) : Bytes :=
  writeVarint p.total ++ writeVarint p.script.length ++
    ((p.script.zip p.witness).map fun q =>
      q.1.toWriter ++ q.2.toWriter).flatten

/-- Reader for one script/witness pair of a SignResultPacket. -/
def readPair (data : Bytes) : Option ((Script × Witness) × Bytes) :=
  (Script.fromReader data).bind fun s =>
    (Witness.fromReader s.2).map fun w => ((s.1, w.1), w.2)

def SignResultPacket.fromReader (data : Bytes) :
    Option (SignResultPacket × Bytes) :=
  (readVarint data).bind fun tot =>
    (readVarint tot.2).bind fun n =>
      (readCount readPair n.1 n.2).map fun ps =>
        (⟨tot.1, ps.1.map Prod.fst, ps.1.map Prod.snd⟩, ps.2)

def SignResultPacket.OK (p : SignResultPacket) : Prop :=
  p.total < 2 ^ 64 ∧ p.script.length = p.witness.length ∧
    p.script.length < 2 ^ 64 ∧ (∀ s ∈ p.script, s.OK) ∧
    ∀ w ∈ p.witness, w.OK

/-- SignResultPacket.inject: asserts both array lengths match the target
transaction's input count, then overwrites every input's script and
witness; the failed assertion is modelled as none, in which case the
transaction is untouched. -/
def SignResultPacket.inject (p : SignResultPacket) (tx : MTX) : Option MTX :=
  if p.script.length = tx.inputs.length ∧ p.witness.length = tx.inputs.length
  then some { tx with inputs :=
    (p.script.zip p.witness).map fun q => ⟨q.1, q.2⟩ }
  else none

/-- VerifyInputPacket: transaction, input index, one coin, flags. -/
structure VerifyInputPacket where
  tx : TX
  index : Nat
  coin : Output
  flags : Option Int
deriving DecidableEq, Repr

def VerifyInputPacket.getSize (p : VerifyInputPacket) : Nat :=
  p.tx.getSize + sizeVarint p.index + sizeVarint p.coin.value +
    p.coin.script.getVarSize + 4

def VerifyInputPacket.toWriter (p : VerifyInputPacket) : Bytes :=
  p.tx.toWriter ++ writeVarint p.index ++ writeVarint p.coin.value ++
    p.coin.script.toWriter ++ write32 (p.flags.getD (-1))

def VerifyInputPacket.fromReader (data : Bytes) :
    Option (VerifyInputPacket × Bytes) :=
  (TX.fromReader data).bind fun t =>
    (readVarint t.2).bind fun i =>
      (readVarint i.2).bind fun v =>
        (Script.fromReader v.2).bind fun s =>
          (read32 s.2).map fun f =>
            (⟨t.1, i.1, ⟨v.1, s.1⟩, if f.1 = -1 then none else some f.1⟩,
              f.2)

def VerifyInputPacket.OK (p : VerifyInputPacket) : Prop :=
  p.tx.OK ∧ p.index < 2 ^ 64 ∧ p.coin.OK ∧ flagsOK p.flags

/-- VerifyInputResultPacket: a single boolean result byte. -/
structure VerifyInputResultPacket where
  value : Bool
deriving DecidableEq, Repr

def VerifyInputResultPacket.getSize (_ : VerifyInputResultPacket) : Nat := 1

def VerifyInputResultPacket.toWriter (p : VerifyInputResultPacket) : Bytes :=
  writeU8 (if p.value then 1 else 0)

def VerifyInputResultPacket.fromReader (data : Bytes) :
    Option (VerifyInputResultPacket × Bytes) :=
  (readU8 data).map fun b => (⟨b.1 == 1⟩, b.2)

def VerifyInputResultPacket.OK (_ : VerifyInputResultPacket) : Prop := True

/-- SignInputPacket: transaction, index, coin, one keyring, sighash type. -/
structure SignInputPacket where
  tx : MTX
  index : Nat
  coin : Output
  ring : KeyRing
  type : Nat
deriving DecidableEq, Repr

def SignInputPacket.getSize (p : SignInputPacket) : Nat :=
  p.tx.getSize + sizeVarint p.index + sizeVarint p.coin.value +
    p.coin.script.getVarSize + p.ring.getSize + 1

def SignInputPacket.toWriter (p : SignInputPacket) : Bytes :=
  p.tx.toWriter ++ writeVarint p.index ++ writeVarint p.coin.value ++
    p.coin.script.toWriter ++ p.ring.toWriter ++ writeU8 p.type

def SignInputPacket.fromReader (data : Bytes) :
    Option (SignInputPacket × Bytes) :=
  (MTX.fromReader data).bind fun t =>
    (readVarint t.2).bind fun i =>
      (readVarint i.2).bind fun v =>
        (Script.fromReader v.2).bind fun s =>
          (KeyRing.fromReader s.2).bind fun k =>
            (readU8 k.2).map fun ty =>
              (⟨t.1, i.1, ⟨v.1, s.1⟩, k.1, ty.1⟩, ty.2)

def SignInputPacket.OK (p : SignInputPacket) : Prop :=
  p.tx.OK ∧ p.index < 2 ^ 64 ∧ p.coin.OK ∧ p.ring.OK ∧ p.type < 256

/-- SignInputResultPacket: success flag plus one script/witness pair. -/
structure SignInputResultPacket where
  value : Bool
  script : Script
  witness : Witness
deriving DecidableEq, Repr

def SignInputResultPacket.getSize (p : SignInputResultPacket) : Nat :=
  1 + p.script.getVarSize + p.witness.getVarSize

def SignInputResultPacket.toWriter (p : SignInputResultPacket) : Bytes :=
  writeU8 (if p.value then 1 else 0) ++ p.script.toWriter ++
    p.witness.toWriter

def SignInputResultPacket.fromReader (data : Bytes) :
    Option (SignInputResultPacket × Bytes) :=
  (readU8 data).bind fun b =>
    (Script.fromReader b.2).bind fun s =>
      (Witness.fromReader s.2).map fun w => (⟨b.1 == 1, s.1, w.1⟩, w.2)

def SignInputResultPacket.OK (p : SignInputResultPacket) : Prop :=
  p.script.OK ∧ p.witness.OK

/-- SignInputResultPacket.inject: asserts the indexed input exists, then
overwrites its script and witness; a missing input is modelled as none, in
which case the transaction is untouched. -/
def SignInputResultPacket.inject (p : SignInputResultPacket) (tx : MTX)
    (i : Nat) : Option MTX :=
  if i < tx.inputs.length then
    some { tx with inputs := tx.inputs.set i ⟨p.script, p.witness⟩ }
  else none

/-- ECVerifyPacket: message, signature, public key, each length-prefixed. -/
structure ECVerifyPacket where
  msg : Bytes
  sig : Bytes
  key : Bytes
deriving DecidableEq, Repr

def ECVerifyPacket.getSize (p : ECVerifyPacket) : Nat :=
  sizeVarBytes p.msg + sizeVarBytes p.sig + sizeVarBytes p.key

def ECVerifyPacket.toWriter (p : ECVerifyPacket) : Bytes :=
  writeVarBytes p.msg ++ writeVarBytes p.sig ++ writeVarBytes p.key

def ECVerifyPacket.fromReader (data : Bytes) :
    Option (ECVerifyPacket × Bytes) :=
  (readVarBytes data).bind fun m =>
    (readVarBytes m.2).bind fun s =>
      (readVarBytes s.2).map fun k => (⟨m.1, s.1, k.1⟩, k.2)

def ECVerifyPacket.OK (p : ECVerifyPacket) : Prop :=
  ByteOK p.msg ∧ ByteOK p.sig ∧ ByteOK p.key

/-- ECVerifyResultPacket: a single boolean result byte. -/
structure ECVerifyResultPacket where
  value : Bool
deriving DecidableEq, Repr

def ECVerifyResultPacket.getSize (_ : ECVerifyResultPacket) : Nat := 1

def ECVerifyResultPacket.toWriter (p : ECVerifyResultPacket) : Bytes :=
  writeU8 (if p.value then 1 else 0)

def ECVerifyResultPacket.fromReader (data : Bytes) :
    Option (ECVerifyResultPacket × Bytes) :=
  (readU8 data).map fun b => (⟨b.1 == 1⟩, b.2)

def ECVerifyResultPacket.OK (_ : ECVerifyResultPacket) : Prop := True

/-- ECSignPacket: message and private key, each length-prefixed. -/
structure ECSignPacket where
  msg : Bytes
  key : Bytes
deriving DecidableEq, Repr

def ECSignPacket.getSize (p : ECSignPacket) : Nat :=
  sizeVarBytes p.msg + sizeVarBytes p.key

def ECSignPacket.toWriter (p : ECSignPacket) : Bytes :=
  writeVarBytes p.msg ++ writeVarBytes p.key

def ECSignPacket.fromReader (data : Bytes) : Option (ECSignPacket × Bytes) :=
  (readVarBytes data).bind fun m =>
    (readVarBytes m.2).map fun k => (⟨m.1, k.1⟩, k.2)

def ECSignPacket.OK (p : ECSignPacket) : Prop := ByteOK p.msg ∧ ByteOK p.key

/-- ECSignResultPacket: a length-prefixed signature. -/
structure ECSignResultPacket where
  sig : Bytes
deriving DecidableEq, Repr

def ECSignResultPacket.getSize (p : ECSignResultPacket) : Nat :=
  sizeVarBytes p.sig

def ECSignResultPacket.toWriter (p : ECSignResultPacket) : Bytes :=
  writeVarBytes p.sig

def ECSignResultPacket.fromReader (data : Bytes) :
    Option (ECSignResultPacket × Bytes) :=
  (readVarBytes data).map fun s => (⟨s.1⟩, s.2)

def ECSignResultPacket.OK (p : ECSignResultPacket) : Prop := ByteOK p.sig

/-- MinePacket: 80-byte header template, 32-byte target, min and max nonce
(u32, with -1 meaning unset). Its fromRaw reads min and max back with a
plain unsigned read and performs no sentinel conversion. -/
structure MinePacket where
  data : Bytes
  target : Bytes
  min : Int
  max : Int
deriving DecidableEq, Repr

def MinePacket.getSize (_ : MinePacket) : Nat := 120

def MinePacket.toWriter (p : MinePacket) : Bytes :=
  p.data ++ p.target ++ writeU32 p.min ++ writeU32 p.max

def MinePacket.fromReader (data : Bytes) : Option (MinePacket × Bytes) :=
  (readBytes 80 data).bind fun d =>
    (readBytes 32 d.2).bind fun t =>
      (readU32 t.2).bind fun mn =>
        (readU32 mn.2).map fun mx =>
          (⟨d.1, t.1, (mn.1 : Int), (mx.1 : Int)⟩, mx.2)

def MinePacket.OK (p : MinePacket) : Prop :=
  p.data.length = 80 ∧ (∀ b ∈ p.data, b < 256) ∧ p.target.length = 32 ∧
    (∀ b ∈ p.target, b < 256) ∧ (p.min = -1 ∨ 0 ≤ p.min ∧ p.min < 2 ^ 32) ∧
    (p.max = -1 ∨ 0 ≤ p.max ∧ p.max < 2 ^ 32)

/-- MineResultPacket: found nonce (u32), -1 meaning not found; its fromRaw
maps the wraparound bit pattern back to -1. -/
structure MineResultPacket where
  nonce : Int
deriving DecidableEq, Repr

def MineResultPacket.getSize (_ : MineResultPacket) : Nat := 4

def MineResultPacket.toWriter (p : MineResultPacket) : Bytes :=
  writeU32 p.nonce

def MineResultPacket.fromReader (data : Bytes) :
    Option (MineResultPacket × Bytes) :=
  (readU32 data).map fun n =>
    (⟨if n.1 = 2 ^ 32 - 1 then -1 else (n.1 : Int)⟩, n.2)

def MineResultPacket.OK (p : MineResultPacket) : Prop :=
  p.nonce = -1 ∨ 0 ≤ p.nonce ∧ p.nonce < 2 ^ 32

/-- ScryptPacket: password and salt bytes plus the four u32 cost
parameters (the constructor defaults each parameter to -1 when absent,
written as its unsigned wraparound pattern). -/
structure ScryptPacket where
  passwd : Bytes
  salt : Bytes
  N : Int
  r : Int
  p : Int
  len : Int
deriving DecidableEq, Repr

def ScryptPacket.getSize (q : ScryptPacket) : Nat :=
  sizeVarBytes q.passwd + sizeVarBytes q.salt + 16

def ScryptPacket.toWriter (q : ScryptPacket) : Bytes :=
  writeVarBytes q.passwd ++ writeVarBytes q.salt ++ writeU32 q.N ++
    writeU32 q.r ++ writeU32 q.p ++ writeU32 q.len

def ScryptPacket.fromReader (data : Bytes) : Option (ScryptPacket × Bytes) :=
  (readVarBytes data).bind fun pw =>
    (readVarBytes pw.2).bind fun sl =>
      (readU32 sl.2).bind fun n =>
        (readU32 n.2).bind fun r =>
          (readU32 r.2).bind fun p =>
            (readU32 p.2).map fun l =>
              (⟨pw.1, sl.1, (n.1 : Int), (r.1 : Int), (p.1 : Int),
                (l.1 : Int)⟩, l.2)

def ScryptPacket.OK (q : ScryptPacket) : Prop :=
  ByteOK q.passwd ∧ ByteOK q.salt ∧ (0 ≤ q.N ∧ q.N < 2 ^ 32) ∧
    (0 ≤ q.r ∧ q.r < 2 ^ 32) ∧ (0 ≤ q.p ∧ q.p < 2 ^ 32) ∧
    (0 ≤ q.len ∧ q.len < 2 ^ 32)

/-- ScryptResultPacket: the derived key, length-prefixed. -/
structure ScryptResultPacket where
  key : Bytes
deriving DecidableEq, Repr

def ScryptResultPacket.getSize (p : ScryptResultPacket) : Nat :=
  sizeVarBytes p.key

def ScryptResultPacket.toWriter (p : ScryptResultPacket) : Bytes :=
  writeVarBytes p.key

def ScryptResultPacket.fromReader (data : Bytes) :
    Option (ScryptResultPacket × Bytes) :=
  (readVarBytes data).map fun s => (⟨s.1⟩, s.2)

def ScryptResultPacket.OK (p : ScryptResultPacket) : Prop := ByteOK p.key

/-! Packet registry: the closed sum of the 20 variants, the command-code
mapping (packetTypes), the encoder, and the dispatching decoder of spec
section 4.3 (the dispatch sits in the worker framer, outside the provided
sources; each branch is the variant's fromRaw from the source, which
ignores any bytes left over after its fields). -/

inductive WPacket where
  | event : EventPacket → WPacket
  | log : LogPacket → WPacket
  | error : ErrorPacket → WPacket
  | errorResult : ErrorResultPacket → WPacket
  | verify : VerifyPacket → WPacket
  | verifyResult : VerifyResultPacket → WPacket
  | sign : SignPacket → WPacket
  | signResult : SignResultPacket → WPacket
  | verifyInput : VerifyInputPacket → WPacket
  | verifyInputResult : VerifyInputResultPacket → WPacket
  | signInput : SignInputPacket → WPacket
  | signInputResult : SignInputResultPacket → WPacket
  | ecVerify : ECVerifyPacket → WPacket
  | ecVerifyResult : ECVerifyResultPacket → WPacket
  | ecSign : ECSignPacket → WPacket
  | ecSignResult : ECSignResultPacket → WPacket
  | mine : MinePacket → WPacket
  | mineResult : MineResultPacket → WPacket
  | scrypt : ScryptPacket → WPacket
  | scryptResult : ScryptResultPacket → WPacket
deriving DecidableEq, Repr

/-- Command code of each variant (the packetTypes table). -/
def WPacket.cmd : WPacket → Nat
  | .event _ => 0
  | .log _ => 1
  | .error _ => 2
  | .errorResult _ => 3
  | .verify _ => 4
  | .verifyResult _ => 5
  | .sign _ => 6
  | .signResult _ => 7
  | .verifyInput _ => 8
  | .verifyInputResult _ => 9
  | .signInput _ => 10
  | .signInputResult _ => 11
  | .ecVerify _ => 12
  | .ecVerifyResult _ => 13
  | .ecSign _ => 14
  | .ecSignResult _ => 15
  | .mine _ => 16
  | .mineResult _ => 17
  | .scrypt _ => 18
  | .scryptResult _ => 19

/-- Payload bytes each variant's toWriter emits. -/
def WPacket.serialize : WPacket → Bytes
  | .event p => p.toWriter
  | .log p => p.toWriter
  | .error p => p.toWriter
  | .errorResult p => p.toWriter
  | .verify p => p.toWriter
  | .verifyResult p => p.toWriter
  | .sign p => p.toWriter
  | .signResult p => p.toWriter
  | .verifyInput p => p.toWriter
  | .verifyInputResult p => p.toWriter
  | .signInput p => p.toWriter
  | .signInputResult p => p.toWriter
  | .ecVerify p => p.toWriter
  | .ecVerifyResult p => p.toWriter
  | .ecSign p => p.toWriter
  | .ecSignResult p => p.toWriter
  | .mine p => p.toWriter
  | .mineResult p => p.toWriter
  | .scrypt p => p.toWriter
  | .scryptResult p => p.toWriter

/-- Declared payload size of each variant's getSize. -/
def WPacket.getSize : WPacket → Nat
  | .event p => p.getSize
  | .log p => p.getSize
  | .error p => p.getSize
  | .errorResult p => p.getSize
  | .verify p => p.getSize
  | .verifyResult p => p.getSize
  | .sign p => p.getSize
  | .signResult p => p.getSize
  | .verifyInput p => p.getSize
  | .verifyInputResult p => p.getSize
  | .signInput p => p.getSize
  | .signInputResult p => p.getSize
  | .ecVerify p => p.getSize
  | .ecVerifyResult p => p.getSize
  | .ecSign p => p.getSize
  | .ecSignResult p => p.getSize
  | .mine p => p.getSize
  | .mineResult p => p.getSize
  | .scrypt p => p.getSize
  | .scryptResult p => p.getSize

/-- Valid values of each variant's fields (byte strings are true byte
strings, counts and values fit the varint encoder, fixed-size blocks have
their declared size, sentinel-capable fields are either their sentinel or
in unsigned 32-bit range, and SignResult's arrays satisfy the equal-length
assertion its toWriter makes). -/
def WPacket.OK : WPacket → Prop
  | .event p => p.OK
  | .log p => p.OK
  | .error p => p.OK
  | .errorResult p => p.OK
  | .verify p => p.OK
  | .verifyResult p => p.OK
  | .sign p => p.OK
  | .signResult p => p.OK
  | .verifyInput p => p.OK
  | .verifyInputResult p => p.OK
  | .signInput p => p.OK
  | .signInputResult p => p.OK
  | .ecVerify p => p.OK
  | .ecVerifyResult p => p.OK
  | .ecSign p => p.OK
  | .ecSignResult p => p.OK
  | .mine p => p.OK
  | .mineResult p => p.OK
  | .scrypt p => p.OK
  | .scryptResult p => p.OK

/-- Canonical values: excludes exactly the representations that collide on
the wire with another valid representation of the same variant, namely an
absent error type tag (serialized as the empty string), an explicit flags
value of -1 (serialized as the null-flags sentinel), a Mine min or max of
-1 (decoded as the literal 4294967295), and a MineResult nonce of
4294967295 (decoded as the -1 sentinel). -/
def WPacket.Canon : WPacket → Prop
  | .error p => p.error.type.isSome
  | .errorResult p => p.error.type.isSome
  | .verify p => p.flags ≠ some (-1)
  | .verifyInput p => p.flags ≠ some (-1)
  | .mine p => p.min ≠ -1 ∧ p.max ≠ -1
  | .mineResult p => p.nonce ≠ 2 ^ 32 - 1
  | _ => True

instance : DecidablePred Script.OK := fun s =>
  inferInstanceAs (Decidable (ByteOK s.raw))

instance : DecidablePred Witness.OK := fun w =>
  inferInstanceAs
    (Decidable (w.items.length < 2 ^ 64 ∧ ∀ i ∈ w.items, ByteOK i))

instance : DecidablePred TX.OK := fun t =>
  inferInstanceAs (Decidable (ByteOK t.raw))

instance : DecidablePred CoinView.OK := fun v =>
  inferInstanceAs (Decidable (ByteOK v.raw))

instance : DecidablePred KeyRing.OK := fun k =>
  inferInstanceAs (Decidable (ByteOK k.raw))

instance : DecidablePred Input.OK := fun i =>
  inferInstanceAs (Decidable (i.script.OK ∧ i.witness.OK))

instance : DecidablePred MTX.OK := fun t =>
  inferInstanceAs (Decidable (t.inputs.length < 2 ^ 64 ∧
    (∀ i ∈ t.inputs, i.OK) ∧ ByteOK t.rest))

instance : DecidablePred Output.OK := fun o =>
  inferInstanceAs (Decidable (o.value < 2 ^ 64 ∧ o.script.OK))

instance : DecidablePred ErrObj.OK := fun e =>
  inferInstanceAs
    (Decidable (ByteOK e.message ∧ ByteOK e.stack ∧ OptByteOK e.type))

instance : DecidablePred EventPacket.OK := fun p =>
  inferInstanceAs (Decidable (ByteOK p.json))

instance : DecidablePred LogPacket.OK := fun p =>
  inferInstanceAs (Decidable (ByteOK p.text))

instance : DecidablePred ErrorPacket.OK := fun p =>
  inferInstanceAs (Decidable p.error.OK)

instance : DecidablePred ErrorResultPacket.OK := fun p =>
  inferInstanceAs (Decidable p.error.OK)

instance : DecidablePred VerifyPacket.OK := fun p =>
  inferInstanceAs (Decidable (p.tx.OK ∧ p.view.OK ∧ flagsOK p.flags))

instance : DecidablePred VerifyInputPacket.OK := fun p =>
  inferInstanceAs
    (Decidable (p.tx.OK ∧ p.index < 2 ^ 64 ∧ p.coin.OK ∧ flagsOK p.flags))

instance : DecidablePred MinePacket.OK := fun p =>
  inferInstanceAs (Decidable (p.data.length = 80 ∧
    (∀ b ∈ p.data, b < 256) ∧ p.target.length = 32 ∧
    (∀ b ∈ p.target, b < 256) ∧
    (p.min = -1 ∨ 0 ≤ p.min ∧ p.min < 2 ^ 32) ∧
    (p.max = -1 ∨ 0 ≤ p.max ∧ p.max < 2 ^ 32)))

instance : DecidablePred MineResultPacket.OK := fun p =>
  inferInstanceAs (Decidable (p.nonce = -1 ∨ 0 ≤ p.nonce ∧ p.nonce < 2 ^ 32))

instance : DecidablePred WPacket.OK := fun p =>
  match p with
  | .event q => inferInstanceAs (Decidable (ByteOK q.json))
  | .log q => inferInstanceAs (Decidable (ByteOK q.text))
  | .error q => inferInstanceAs (Decidable q.error.OK)
  | .errorResult q => inferInstanceAs (Decidable q.error.OK)
  | .verify q =>
      inferInstanceAs (Decidable (q.tx.OK ∧ q.view.OK ∧ flagsOK q.flags))
  | .verifyResult _ => inferInstanceAs (Decidable True)
  | .sign q => inferInstanceAs (Decidable (q.tx.OK ∧ q.view.OK ∧
      q.rings.length < 2 ^ 64 ∧ (∀ r ∈ q.rings, r.OK) ∧ q.type < 256))
  | .signResult q => inferInstanceAs (Decidable (q.total < 2 ^ 64 ∧
      q.script.length = q.witness.length ∧ q.script.length < 2 ^ 64 ∧
      (∀ s ∈ q.script, s.OK) ∧ ∀ w ∈ q.witness, w.OK))
  | .verifyInput q => inferInstanceAs (Decidable (q.tx.OK ∧
      q.index < 2 ^ 64 ∧ q.coin.OK ∧ flagsOK q.flags))
  | .verifyInputResult _ => inferInstanceAs (Decidable True)
  | .signInput q => inferInstanceAs (Decidable (q.tx.OK ∧
      q.index < 2 ^ 64 ∧ q.coin.OK ∧ q.ring.OK ∧ q.type < 256))
  | .signInputResult q =>
      inferInstanceAs (Decidable (q.script.OK ∧ q.witness.OK))
  | .ecVerify q => inferInstanceAs
      (Decidable (ByteOK q.msg ∧ ByteOK q.sig ∧ ByteOK q.key))
  | .ecVerifyResult _ => inferInstanceAs (Decidable True)
  | .ecSign q => inferInstanceAs (Decidable (ByteOK q.msg ∧ ByteOK q.key))
  | .ecSignResult q => inferInstanceAs (Decidable (ByteOK q.sig))
  | .mine q => inferInstanceAs (Decidable (q.data.length = 80 ∧
      (∀ b ∈ q.data, b < 256) ∧ q.target.length = 32 ∧
      (∀ b ∈ q.target, b < 256) ∧
      (q.min = -1 ∨ 0 ≤ q.min ∧ q.min < 2 ^ 32) ∧
      (q.max = -1 ∨ 0 ≤ q.max ∧ q.max < 2 ^ 32)))
  | .mineResult q => inferInstanceAs
      (Decidable (q.nonce = -1 ∨ 0 ≤ q.nonce ∧ q.nonce < 2 ^ 32))
  | .scrypt q => inferInstanceAs (Decidable (ByteOK q.passwd ∧
      ByteOK q.salt ∧ (0 ≤ q.N ∧ q.N < 2 ^ 32) ∧ (0 ≤ q.r ∧ q.r < 2 ^ 32) ∧
      (0 ≤ q.p ∧ q.p < 2 ^ 32) ∧ (0 ≤ q.len ∧ q.len < 2 ^ 32)))
  | .scryptResult q => inferInstanceAs (Decidable (ByteOK q.key))

instance : DecidablePred WPacket.Canon := fun p =>
  match p with
  | .event _ => inferInstanceAs (Decidable True)
  | .log _ => inferInstanceAs (Decidable True)
  | .error q => inferInstanceAs (Decidable (q.error.type.isSome = true))
  | .errorResult q =>
      inferInstanceAs (Decidable (q.error.type.isSome = true))
  | .verify q => inferInstanceAs (Decidable (q.flags ≠ some (-1)))
  | .verifyResult _ => inferInstanceAs (Decidable True)
  | .sign _ => inferInstanceAs (Decidable True)
  | .signResult _ => inferInstanceAs (Decidable True)
  | .verifyInput q => inferInstanceAs (Decidable (q.flags ≠ some (-1)))
  | .verifyInputResult _ => inferInstanceAs (Decidable True)
  | .signInput _ => inferInstanceAs (Decidable True)
  | .signInputResult _ => inferInstanceAs (Decidable True)
  | .ecVerify _ => inferInstanceAs (Decidable True)
  | .ecVerifyResult _ => inferInstanceAs (Decidable True)
  | .ecSign _ => inferInstanceAs (Decidable True)
  | .ecSignResult _ => inferInstanceAs (Decidable True)
  | .mine q => inferInstanceAs (Decidable (q.min ≠ -1 ∧ q.max ≠ -1))
  | .mineResult q => inferInstanceAs (Decidable (q.nonce ≠ 2 ^ 32 - 1))
  | .scrypt _ => inferInstanceAs (Decidable True)
  | .scryptResult _ => inferInstanceAs (Decidable True)

/-- Modelled from the spec: the registry dispatch of spec section 4.3
(workers framer, not under the provided sources) maps a command code to
that variant's fromRaw and reconstructs the typed packet; an unknown code
is a protocol error. Every fromRaw in the source ignores bytes remaining
after its fields, hence the projection to the first component. -/
def decode (cmd : Nat) (data : Bytes) : Option WPacket :=
  match cmd with
  | 0 => (EventPacket.fromReader data).map fun p => WPacket.event p.1
  | 1 => (LogPacket.fromReader data).map fun p => WPacket.log p.1
  | 2 => (ErrorPacket.fromReader data).map fun p => WPacket.error p.1
  | 3 => (ErrorResultPacket.fromReader data).map fun p =>
      WPacket.errorResult p.1
  | 4 => (VerifyPacket.fromReader data).map fun p => WPacket.verify p.1
  | 5 => (VerifyResultPacket.fromReader data).map fun p =>
      WPacket.verifyResult p.1
  | 6 => (SignPacket.fromReader data).map fun p => WPacket.sign p.1
  | 7 => (SignResultPacket.fromReader data).map fun p =>
      WPacket.signResult p.1
  | 8 => (VerifyInputPacket.fromReader data).map fun p =>
      WPacket.verifyInput p.1
  | 9 => (VerifyInputResultPacket.fromReader data).map fun p =>
      WPacket.verifyInputResult p.1
  | 10 => (SignInputPacket.fromReader data).map fun p =>
      WPacket.signInput p.1
  | 11 => (SignInputResultPacket.fromReader data).map fun p =>
      WPacket.signInputResult p.1
  | 12 => (ECVerifyPacket.fromReader data).map fun p => WPacket.ecVerify p.1
  | 13 => (ECVerifyResultPacket.fromReader data).map fun p =>
      WPacket.ecVerifyResult p.1
  | 14 => (ECSignPacket.fromReader data).map fun p => WPacket.ecSign p.1
  | 15 => (ECSignResultPacket.fromReader data).map fun p =>
      WPacket.ecSignResult p.1
  | 16 => (MinePacket.fromReader data).map fun p => WPacket.mine p.1
  | 17 => (MineResultPacket.fromReader data).map fun p =>
      WPacket.mineResult p.1
  | 18 => (ScryptPacket.fromReader data).map fun p => WPacket.scrypt p.1
  | 19 => (ScryptResultPacket.fromReader data).map fun p =>
      WPacket.scryptResult p.1
  | _ => none

/-! Packet identity generator. The source keeps a module-level counter
Packet.id starting at 0; each constructor runs this.id = ++Packet.id
followed by an unsigned 32-bit coercion, so the stored counter is the raw
incremented number and the handed-out identity is its value modulo 2^32. -/

/-- One construction step: from the current counter, the identity the new
packet receives and the new counter. -/
def nextPacketId (c : Nat) : Nat × Nat := ((c + 1) % 2 ^ 32, c + 1)

/-- Counter value after k packet constructions in a fresh process. -/
def counterAfter : Nat → Nat
  | 0 => 0
  | k + 1 => (nextPacketId (counterAfter k)).2

/-- Identity received by the k-th packet (counting from 0) constructed in
a fresh process. -/
def idOf (k : Nat) : Nat := (nextPacketId (counterAfter k)).1

/-! Primitive codec lemmas. -/

theorem bytesLE_length (w v : Nat) : (bytesLE w v).length = w := by
  induction w generalizing v with
  | zero => rfl
  | succ w ih => simp [bytesLE, ih]

theorem natOfLE_bytesLE (w v : Nat) (h : v < 256 ^ w) :
    natOfLE (bytesLE w v) = v := by
  induction w generalizing v with
  | zero => simp at h; simp [bytesLE, natOfLE, h]
  | succ w ih =>
      have hlt : v / 256 < 256 ^ w := by
        rw [Nat.div_lt_iff_lt_mul (by norm_num)]
        calc v < 256 ^ (w + 1) := h
        _ = 256 ^ w * 256 := by ring
      simp [bytesLE, natOfLE, ih _ hlt]
      omega

theorem readBytes_append (bs rest : Bytes) :
    readBytes bs.length (bs ++ rest) = some (bs, rest) := by
  simp [readBytes, List.take_append, List.drop_append]

theorem readBytes_short (n : Nat) (data : Bytes) (h : data.length < n) :
    readBytes n data = none := by
  simp [readBytes]; omega

theorem readULE_append (w v : Nat) (rest : Bytes) (h : v < 256 ^ w) :
    readULE w (bytesLE w v ++ rest) = some (v, rest) := by
  have hb := readBytes_append (bytesLE w v) rest
  rw [bytesLE_length] at hb
  simp [readULE, hb, natOfLE_bytesLE w v h]

theorem readULE_short (w : Nat) (data : Bytes) (h : data.length < w) :
    readULE w data = none := by
  simp [readULE, readBytes_short w data h]

theorem dropLast_append_ne {α : Type} (a b : List α) (h : b ≠ []) :
    (a ++ b).dropLast = a ++ b.dropLast := by
  induction a with
  | nil => rfl
  | cons x xs ih =>
      have hne : xs ++ b ≠ [] := by
        intro hc
        exact h (List.append_eq_nil.mp hc).2
      calc ((x :: xs) ++ b).dropLast = (x :: (xs ++ b)).dropLast := rfl
      _ = x :: (xs ++ b).dropLast := List.dropLast_cons_of_ne_nil hne
      _ = x :: (xs ++ b.dropLast) := by rw [ih]
      _ = (x :: xs) ++ b.dropLast := rfl

theorem flatten_ne_nil {α : Type} (l : List (List α)) (x : List α)
    (hx : x ∈ l) (hne : x ≠ []) : l.flatten ≠ [] := by
  intro hc
  rw [List.flatten_eq_nil_iff] at hc
  exact hne (hc x hx)

theorem writeVarint_length (n : Nat) :
    (writeVarint n).length = sizeVarint n := by
  unfold writeVarint sizeVarint
  split
  · rfl
  · split
    · simp [bytesLE_length]
    · split <;> simp [bytesLE_length]

theorem writeVarint_ne_nil (n : Nat) : writeVarint n ≠ [] := by
  unfold writeVarint
  split
  · simp
  · split
    · simp
    · split <;> simp

theorem bytesLE_ne_nil (w n : Nat) (h : 0 < w) : bytesLE w n ≠ [] := by
  intro hc
  have := congrArg List.length hc
  rw [bytesLE_length] at this
  simp at this
  omega

theorem readVarint_append (n : Nat) (rest : Bytes) (h : n < 2 ^ 64) :
    readVarint (writeVarint n ++ rest) = some (n, rest) := by
  unfold writeVarint
  split
  · next hlt => simp [readVarint, hlt]
  · next hge =>
    split
    · next hle =>
      have h16 := readULE_append 2 n rest (by omega)
      simp [readVarint, readU16, h16]
    · next hgt =>
      split
      · next hle2 =>
        have h32 := readULE_append 4 n rest (by omega)
        simp [readVarint, readU32, h32]
      · next hgt2 =>
        have h64 := readULE_append 8 n rest (by omega)
        simp [readVarint, readU64, h64]

theorem readVarint_dropLast (n : Nat) :
    readVarint ((writeVarint n).dropLast) = none := by
  unfold writeVarint
  split
  · simp [readVarint]
  · next hge =>
    split
    · next hle =>
      rw [List.dropLast_cons_of_ne_nil (bytesLE_ne_nil 2 n (by omega))]
      have hlen : ((bytesLE 2 n).dropLast).length < 2 := by
        simp [List.length_dropLast, bytesLE_length]
      simp [readVarint, readU16, readULE_short 2 _ hlen]
    · next hgt =>
      split
      · next hle2 =>
        rw [List.dropLast_cons_of_ne_nil (bytesLE_ne_nil 4 n (by omega))]
        have hlen : ((bytesLE 4 n).dropLast).length < 4 := by
          simp [List.length_dropLast, bytesLE_length]
        simp [readVarint, readU32, readULE_short 4 _ hlen]
      · next hgt2 =>
        rw [List.dropLast_cons_of_ne_nil (bytesLE_ne_nil 8 n (by omega))]
        have hlen : ((bytesLE 8 n).dropLast).length < 8 := by
          simp [List.length_dropLast, bytesLE_length]
        simp [readVarint, readU64, readULE_short 8 _ hlen]

theorem writeVarBytes_length (bs : Bytes) :
    (writeVarBytes bs).length = sizeVarBytes bs := by
  simp [writeVarBytes, sizeVarBytes, writeVarint_length]

theorem writeVarBytes_ne_nil (bs : Bytes) : writeVarBytes bs ≠ [] := by
  intro hc
  exact writeVarint_ne_nil bs.length (List.append_eq_nil.mp hc).1

theorem readVarBytes_append (bs rest : Bytes) (h : bs.length < 2 ^ 64) :
    readVarBytes (writeVarBytes bs ++ rest) = some (bs, rest) := by
  simp [readVarBytes, writeVarBytes, List.append_assoc,
    readVarint_append bs.length _ h, readBytes_append]

theorem readVarBytes_dropLast (bs : Bytes) (h : bs.length < 2 ^ 64) :
    readVarBytes ((writeVarBytes bs).dropLast) = none := by
  unfold writeVarBytes
  by_cases hb : bs = []
  · subst hb
    simp [readVarBytes, readVarint_dropLast 0]
  · rw [dropLast_append_ne _ _ hb]
    have hlen : (bs.dropLast).length < bs.length := by
      have : 0 < bs.length := List.length_pos.mpr hb
      simp [List.length_dropLast]
      omega
    simp [readVarBytes, readVarint_append bs.length _ h,
      readBytes_short bs.length _ hlen]

theorem readCount_append {α : Type} (r : Bytes → Option (α × Bytes))
    (enc : α → Bytes) (xs : List α)
    (H : ∀ x ∈ xs, ∀ rs, r (enc x ++ rs) = some (x, rs)) (rest : Bytes) :
    readCount r xs.length ((xs.map enc).flatten ++ rest) = some (xs, rest) := by
  induction xs with
  | nil => simp [readCount]
  | cons x tail ih =>
      have hx := H x (by simp)
      have htail : ∀ y ∈ tail, ∀ rs, r (enc y ++ rs) = some (y, rs) := by
        intro y hy
        exact H y (by simp [hy])
      calc readCount r (x :: tail).length (((x :: tail).map enc).flatten ++ rest)
          = readCount r (tail.length + 1) (enc x ++ ((tail.map enc).flatten ++ rest)) := by
            simp [List.append_assoc]
      _ = some (x :: tail, rest) := by
            simp [readCount, hx, ih htail]

theorem readCount_dropLast {α : Type} (r : Bytes → Option (α × Bytes))
    (enc : α → Bytes) (xs : List α) (hne : xs ≠ [])
    (H : ∀ x ∈ xs, ∀ rs, r (enc x ++ rs) = some (x, rs))
    (Hnn : ∀ x ∈ xs, enc x ≠ [])
    (Hf : ∀ x ∈ xs, r ((enc x).dropLast) = none) :
    readCount r xs.length (((xs.map enc).flatten).dropLast) = none := by
  induction xs with
  | nil => exact absurd rfl hne
  | cons x tail ih =>
      match htail : tail with
      | [] =>
          have hx := Hf x (by simp)
          simp [readCount, hx]
      | y :: tail2 =>
          have hflat : ((y :: tail2).map enc).flatten ≠ [] := by
            apply flatten_ne_nil _ (enc y) (by simp)
            exact Hnn y (by simp)
          have step : (((x :: y :: tail2).map enc).flatten).dropLast
              = enc x ++ (((y :: tail2).map enc).flatten).dropLast := by
            rw [List.map_cons, List.flatten_cons, dropLast_append_ne _ _ hflat]
          rw [step]
          have hx := H x (by simp)
          have ihr := ih (by simp)
            (by intro z hz; exact H z (by simp [hz]))
            (by intro z hz; exact Hnn z (by simp [hz]))
            (by intro z hz; exact Hf z (by simp [hz]))
          have hlen : (x :: y :: tail2).length = (y :: tail2).length + 1 := rfl
          have unfold1 : ∀ (m : Nat) (data : Bytes),
              readCount r (m + 1) data = (r data).bind fun p =>
                (readCount r m p.2).map fun q => (p.1 :: q.1, q.2) :=
            fun m data => rfl
          rw [hlen, unfold1, hx]
          simp only [Option.some_bind]
          rw [ihr]
          rfl

/-! Fixed-width 32-bit lemmas. -/

theorem emod32_toNat_lt (i : Int) : (i % 2 ^ 32).toNat < 2 ^ 32 := by
  have h1 : (0 : Int) ≤ i % 2 ^ 32 := Int.emod_nonneg i (by norm_num)
  have h2 : i % 2 ^ 32 < 2 ^ 32 := Int.emod_lt_of_pos i (by norm_num)
  omega

theorem writeU32_length (i : Int) : (writeU32 i).length = 4 := by
  simp [writeU32, bytesLE_length]

theorem write32_length (i : Int) : (write32 i).length = 4 := by
  simp [write32, bytesLE_length]

theorem readU32_writeU32 (i : Int) (rest : Bytes) :
    readU32 (writeU32 i ++ rest) = some ((i % 2 ^ 32).toNat, rest) := by
  have h := emod32_toNat_lt i
  simpa [writeU32, readU32] using
    readULE_append 4 ((i % 2 ^ 32).toNat) rest (by norm_num at h ⊢; omega)

theorem emod32_toNat_of_range (i : Int) (h0 : 0 ≤ i) (h1 : i < 2 ^ 32) :
    ((i % 2 ^ 32).toNat : Int) = i := by
  rw [Int.emod_eq_of_lt h0 h1, Int.toNat_of_nonneg h0]

theorem read32_write32 (i : Int) (rest : Bytes) (h0 : -(2 ^ 31) ≤ i)
    (h1 : i < 2 ^ 31) : read32 (write32 i ++ rest) = some (i, rest) := by
  have h := emod32_toNat_lt i
  have hr := readULE_append 4 ((i % 2 ^ 32).toNat) rest (by norm_num at h ⊢; omega)
  have hmod : ((i % 2 ^ 32).toNat : Int) = i % 2 ^ 32 :=
    Int.toNat_of_nonneg (Int.emod_nonneg i (by norm_num))
  have hsig : toSigned32 (i % 2 ^ 32).toNat = i := by
    unfold toSigned32
    split <;> omega
  unfold read32 write32
  rw [hr]
  simp only [Option.map_some']
  rw [hsig]

theorem read32_trunc (i : Int) : read32 ((write32 i).dropLast) = none := by
  have hlen : ((write32 i).dropLast).length < 4 := by
    simp [List.length_dropLast, write32_length]
  simp [read32, readULE_short 4 _ hlen]

theorem readU32_trunc (i : Int) : readU32 ((writeU32 i).dropLast) = none := by
  have hlen : ((writeU32 i).dropLast).length < 4 := by
    simp [List.length_dropLast, writeU32_length]
  simp [readU32, readULE_short 4 _ hlen]

theorem writeU32_ne_nil (i : Int) : writeU32 i ≠ [] := by
  intro hc
  have := congrArg List.length hc
  rw [writeU32_length] at this
  simp at this

theorem write32_ne_nil (i : Int) : write32 i ≠ [] := by
  intro hc
  have := congrArg List.length hc
  rw [write32_length] at this
  simp at this

theorem writeU8_length (n : Nat) : (writeU8 n).length = 1 := by
  simp [writeU8, bytesLE_length]

theorem readU8_writeU8 (n : Nat) (rest : Bytes) (h : n < 256) :
    readU8 (writeU8 n ++ rest) = some (n, rest) := by
  simpa [writeU8, readU8] using readULE_append 1 n rest (by simpa using h)

theorem readU8_trunc (n : Nat) : readU8 ((writeU8 n).dropLast) = none := by
  have hlen : ((writeU8 n).dropLast).length < 1 := by
    simp [List.length_dropLast, writeU8_length]
  simp [readU8, readULE_short 1 _ hlen]

theorem writeU8_ne_nil (n : Nat) : writeU8 n ≠ [] := by
  intro hc
  have := congrArg List.length hc
  rw [writeU8_length] at this
  simp at this

/-! Sub-codec lemmas: each writer is self-delimiting (its reader consumes
exactly the written bytes and returns the value), nonempty, fails when its
last byte is removed, and writes exactly its declared size. -/

theorem script_consume (s : Script) (h : s.OK) (rest : Bytes) :
    Script.fromReader (s.toWriter ++ rest) = some (s, rest) := by
  simp [Script.fromReader, Script.toWriter, readVarBytes_append s.raw rest h.1]

theorem script_writer_ne_nil (s : Script) : s.toWriter ≠ [] :=
  writeVarBytes_ne_nil s.raw

theorem script_trunc (s : Script) (h : s.OK) :
    Script.fromReader ((s.toWriter).dropLast) = none := by
  simp [Script.fromReader, Script.toWriter, readVarBytes_dropLast s.raw h.1]

theorem script_writer_length (s : Script) :
    (s.toWriter).length = s.getVarSize := by
  simp [Script.toWriter, Script.getVarSize, writeVarBytes_length]

theorem witness_consume (w : Witness) (h : w.OK) (rest : Bytes) :
    Witness.fromReader (w.toWriter ++ rest) = some (w, rest) := by
  have hc := readCount_append readVarBytes writeVarBytes w.items
    (fun x hx rs => readVarBytes_append x rs ((h.2 x hx).1)) rest
  simp [Witness.fromReader, Witness.toWriter, List.append_assoc,
    readVarint_append w.items.length _ h.1, hc]

theorem witness_writer_ne_nil (w : Witness) : w.toWriter ≠ [] := by
  intro hc
  exact writeVarint_ne_nil w.items.length (List.append_eq_nil.mp hc).1

theorem witness_trunc (w : Witness) (h : w.OK) :
    Witness.fromReader ((w.toWriter).dropLast) = none := by
  unfold Witness.toWriter
  match hw : w.items with
  | [] => simp [Witness.fromReader, readVarint_dropLast 0]
  | x :: tail =>
      have hflat : ((x :: tail).map writeVarBytes).flatten ≠ [] :=
        flatten_ne_nil _ (writeVarBytes x) (by simp) (writeVarBytes_ne_nil x)
      rw [dropLast_append_ne _ _ hflat]
      have hcount := readCount_dropLast readVarBytes writeVarBytes (x :: tail)
        (by simp)
        (fun z hz rs => readVarBytes_append z rs ((h.2 z (hw ▸ hz)).1))
        (fun z _ => writeVarBytes_ne_nil z)
        (fun z hz => readVarBytes_dropLast z ((h.2 z (hw ▸ hz)).1))
      have hv := readVarint_append (x :: tail).length
        ((((x :: tail).map writeVarBytes).flatten).dropLast) (hw ▸ h.1)
      unfold Witness.fromReader
      rw [hv]
      simp only [Option.some_bind]
      rw [hcount]
      rfl

theorem sum_length_varBytes (l : List Bytes) :
    (List.map (List.length ∘ writeVarBytes) l).sum = (l.map sizeVarBytes).sum := by
  induction l with
  | nil => rfl
  | cons x xs ih => simp [Function.comp, writeVarBytes_length, ih]

theorem witness_writer_length (w : Witness) :
    (w.toWriter).length = w.getVarSize := by
  simp only [Witness.toWriter, Witness.getVarSize, List.length_append,
    writeVarint_length, List.length_flatten, List.map_map,
    sum_length_varBytes]

theorem tx_consume (t : TX) (h : t.OK) (rest : Bytes) :
    TX.fromReader (t.toWriter ++ rest) = some (t, rest) := by
  simp [TX.fromReader, TX.toWriter, readVarBytes_append t.raw rest h.1]

theorem tx_writer_ne_nil (t : TX) : t.toWriter ≠ [] :=
  writeVarBytes_ne_nil t.raw

theorem tx_writer_length (t : TX) : (t.toWriter).length = t.getSize := by
  simp [TX.toWriter, TX.getSize, writeVarBytes_length]

theorem coinView_consume (v : CoinView) (h : v.OK) (rest : Bytes) :
    CoinView.fromReader (v.toWriter ++ rest) = some (v, rest) := by
  simp [CoinView.fromReader, CoinView.toWriter,
    readVarBytes_append v.raw rest h.1]

theorem coinView_writer_ne_nil (v : CoinView) : v.toWriter ≠ [] :=
  writeVarBytes_ne_nil v.raw

theorem coinView_writer_length (v : CoinView) :
    (v.toWriter).length = v.getSize := by
  simp [CoinView.toWriter, CoinView.getSize, writeVarBytes_length]

theorem keyRing_consume (k : KeyRing) (h : k.OK) (rest : Bytes) :
    KeyRing.fromReader (k.toWriter ++ rest) = some (k, rest) := by
  simp [KeyRing.fromReader, KeyRing.toWriter,
    readVarBytes_append k.raw rest h.1]

theorem keyRing_writer_ne_nil (k : KeyRing) : k.toWriter ≠ [] :=
  writeVarBytes_ne_nil k.raw

theorem keyRing_writer_length (k : KeyRing) :
    (k.toWriter).length = k.getSize := by
  simp [KeyRing.toWriter, KeyRing.getSize, writeVarBytes_length]

theorem input_consume (i : Input) (h : i.OK) (rest : Bytes) :
    Input.fromReader (i.toWriter ++ rest) = some (i, rest) := by
  simp [Input.fromReader, Input.toWriter, List.append_assoc,
    script_consume i.script h.1, witness_consume i.witness h.2]

theorem input_writer_ne_nil (i : Input) : i.toWriter ≠ [] := by
  intro hc
  exact script_writer_ne_nil i.script (List.append_eq_nil.mp hc).1

theorem input_trunc (i : Input) (h : i.OK) :
    Input.fromReader ((i.toWriter).dropLast) = none := by
  unfold Input.toWriter
  rw [dropLast_append_ne _ _ (witness_writer_ne_nil i.witness)]
  simp [Input.fromReader, script_consume i.script h.1,
    witness_trunc i.witness h.2]

theorem mtx_consume (t : MTX) (h : t.OK) (rest : Bytes) :
    MTX.fromReader (t.toWriter ++ rest) = some (t, rest) := by
  have hc := readCount_append Input.fromReader Input.toWriter t.inputs
    (fun x hx rs => input_consume x (h.2.1 x hx) rs)
    (writeVarBytes t.rest ++ rest)
  simp [MTX.fromReader, MTX.toWriter, List.append_assoc,
    readVarint_append t.inputs.length _ h.1, hc,
    readVarBytes_append t.rest rest h.2.2.1]

theorem mtx_writer_ne_nil (t : MTX) : t.toWriter ≠ [] := by
  intro hc
  exact writeVarint_ne_nil t.inputs.length
    (List.append_eq_nil.mp (List.append_eq_nil.mp hc).1).1

theorem sum_length_inputWriter (l : List Input) :
    (List.map (List.length ∘ Input.toWriter) l).sum
      = (l.map fun i => i.script.getVarSize + i.witness.getVarSize).sum := by
  induction l with
  | nil => rfl
  | cons x xs ih =>
      simp [Function.comp, Input.toWriter, script_writer_length,
        witness_writer_length, ih]

theorem mtx_writer_length (t : MTX) :
    (t.toWriter).length = t.getSize := by
  simp only [MTX.toWriter, MTX.getSize, List.length_append,
    writeVarint_length, writeVarBytes_length, List.length_flatten,
    List.map_map, sum_length_inputWriter]

theorem readPair_consume (s : Script) (w : Witness) (hs : s.OK) (hw : w.OK)
    (rest : Bytes) :
    readPair ((s.toWriter ++ w.toWriter) ++ rest) = some ((s, w), rest) := by
  simp [readPair, List.append_assoc, script_consume s hs,
    witness_consume w hw]

theorem readPair_trunc (s : Script) (w : Witness) (hs : s.OK) (hw : w.OK) :
    readPair ((s.toWriter ++ w.toWriter).dropLast) = none := by
  rw [dropLast_append_ne _ _ (witness_writer_ne_nil w)]
  simp [readPair, script_consume s hs, witness_trunc w hw]

theorem pair_writer_ne_nil (s : Script) (w : Witness) :
    s.toWriter ++ w.toWriter ≠ [] := by
  intro hc
  exact script_writer_ne_nil s (List.append_eq_nil.mp hc).1

/-! Per-variant codec lemmas: the reader consumes exactly what the writer
emitted, the writer emits getSize bytes, and the reader fails when the
last byte is removed. -/

theorem eventPacket_consume (p : EventPacket) (h : p.OK) (rest : Bytes) :
    EventPacket.fromReader (p.toWriter ++ rest) = some (p, rest) := by
  simp [EventPacket.fromReader, EventPacket.toWriter, readVarString,
    writeVarString, readVarBytes_append p.json rest h.1]

theorem eventPacket_size_eq (p : EventPacket) :
    (p.toWriter).length = p.getSize := by
  simp [EventPacket.toWriter, EventPacket.getSize, writeVarString,
    sizeVarString, writeVarBytes_length]

theorem eventPacket_trunc (p : EventPacket) (h : p.OK) :
    EventPacket.fromReader ((p.toWriter).dropLast) = none := by
  simp [EventPacket.fromReader, EventPacket.toWriter, readVarString,
    writeVarString, readVarBytes_dropLast p.json h.1]

theorem logPacket_consume (p : LogPacket) (h : p.OK) (rest : Bytes) :
    LogPacket.fromReader (p.toWriter ++ rest) = some (p, rest) := by
  simp [LogPacket.fromReader, LogPacket.toWriter, readVarString,
    writeVarString, readVarBytes_append p.text rest h.1]

theorem logPacket_size_eq (p : LogPacket) :
    (p.toWriter).length = p.getSize := by
  simp [LogPacket.toWriter, LogPacket.getSize, writeVarString,
    sizeVarString, writeVarBytes_length]

theorem logPacket_trunc (p : LogPacket) (h : p.OK) :
    LogPacket.fromReader ((p.toWriter).dropLast) = none := by
  simp [LogPacket.fromReader, LogPacket.toWriter, readVarString,
    writeVarString, readVarBytes_dropLast p.text h.1]

theorem ErrObj.typeText_OK (e : ErrObj) (h : e.OK) : ByteOK e.typeText := by
  have h3 := h.2.2
  unfold ErrObj.typeText
  match he : e.type with
  | none => exact ⟨by simp, by simp⟩
  | some t =>
      rw [he] at h3
      exact h3

theorem errorPacket_consume (p : ErrorPacket) (h : p.OK) (rest : Bytes) :
    ErrorPacket.fromReader (p.toWriter ++ rest)
      = some (⟨⟨p.error.message, p.error.stack, some p.error.typeText⟩⟩,
          rest) := by
  simp [ErrorPacket.fromReader, ErrorPacket.toWriter, readVarString,
    writeVarString, List.append_assoc,
    readVarBytes_append p.error.message _ h.1.1,
    readVarBytes_append p.error.stack _ h.2.1.1,
    readVarBytes_append p.error.typeText _ (p.error.typeText_OK h).1]

theorem errorPacket_size_eq (p : ErrorPacket) :
    (p.toWriter).length = p.getSize := by
  simp only [ErrorPacket.toWriter, ErrorPacket.getSize, writeVarString,
    sizeVarString, List.length_append, writeVarBytes_length]

theorem errorPacket_trunc (p : ErrorPacket) (h : p.OK) :
    ErrorPacket.fromReader ((p.toWriter).dropLast) = none := by
  unfold ErrorPacket.toWriter
  simp only [writeVarString]
  rw [List.append_assoc,
    dropLast_append_ne _ _ (by
      intro hc
      exact writeVarBytes_ne_nil p.error.stack (List.append_eq_nil.mp hc).1),
    dropLast_append_ne _ _ (writeVarBytes_ne_nil p.error.typeText)]
  simp [ErrorPacket.fromReader, readVarString,
    readVarBytes_append p.error.message _ h.1.1,
    readVarBytes_append p.error.stack _ h.2.1.1,
    readVarBytes_dropLast p.error.typeText (p.error.typeText_OK h).1]

theorem errorResultPacket_consume (p : ErrorResultPacket) (h : p.OK)
    (rest : Bytes) :
    ErrorResultPacket.fromReader (p.toWriter ++ rest)
      = some (⟨⟨p.error.message, p.error.stack, some p.error.typeText⟩⟩,
          rest) := by
  simp [ErrorResultPacket.fromReader, ErrorResultPacket.toWriter,
    readVarString, writeVarString, List.append_assoc,
    readVarBytes_append p.error.message _ h.1.1,
    readVarBytes_append p.error.stack _ h.2.1.1,
    readVarBytes_append p.error.typeText _ (p.error.typeText_OK h).1]

theorem errorResultPacket_size_eq (p : ErrorResultPacket) :
    (p.toWriter).length = p.getSize := by
  simp only [ErrorResultPacket.toWriter, ErrorResultPacket.getSize,
    writeVarString, sizeVarString, List.length_append, writeVarBytes_length]

theorem errorResultPacket_trunc (p : ErrorResultPacket) (h : p.OK) :
    ErrorResultPacket.fromReader ((p.toWriter).dropLast) = none := by
  unfold ErrorResultPacket.toWriter
  simp only [writeVarString]
  rw [List.append_assoc,
    dropLast_append_ne _ _ (by
      intro hc
      exact writeVarBytes_ne_nil p.error.stack (List.append_eq_nil.mp hc).1),
    dropLast_append_ne _ _ (writeVarBytes_ne_nil p.error.typeText)]
  simp [ErrorResultPacket.fromReader, readVarString,
    readVarBytes_append p.error.message _ h.1.1,
    readVarBytes_append p.error.stack _ h.2.1.1,
    readVarBytes_dropLast p.error.typeText (p.error.typeText_OK h).1]

theorem verifyResultPacket_consume (p : VerifyResultPacket) (rest : Bytes) :
    VerifyResultPacket.fromReader (p.toWriter ++ rest) = some (p, rest) := by
  match p with
  | ⟨true⟩ =>
      simp [VerifyResultPacket.fromReader, VerifyResultPacket.toWriter,
        readU8_writeU8 1 rest (by norm_num)]
  | ⟨false⟩ =>
      simp [VerifyResultPacket.fromReader, VerifyResultPacket.toWriter,
        readU8_writeU8 0 rest (by norm_num)]

theorem verifyResultPacket_size_eq (p : VerifyResultPacket) :
    (p.toWriter).length = p.getSize := by
  simp [VerifyResultPacket.toWriter, VerifyResultPacket.getSize,
    writeU8_length]

theorem verifyResultPacket_trunc (p : VerifyResultPacket) :
    VerifyResultPacket.fromReader ((p.toWriter).dropLast) = none := by
  simp [VerifyResultPacket.fromReader, VerifyResultPacket.toWriter,
    readU8_trunc]

theorem verifyInputResultPacket_consume (p : VerifyInputResultPacket)
    (rest : Bytes) :
    VerifyInputResultPacket.fromReader (p.toWriter ++ rest)
      = some (p, rest) := by
  match p with
  | ⟨true⟩ =>
      simp [VerifyInputResultPacket.fromReader,
        VerifyInputResultPacket.toWriter, readU8_writeU8 1 rest (by norm_num)]
  | ⟨false⟩ =>
      simp [VerifyInputResultPacket.fromReader,
        VerifyInputResultPacket.toWriter, readU8_writeU8 0 rest (by norm_num)]

theorem verifyInputResultPacket_size_eq (p : VerifyInputResultPacket) :
    (p.toWriter).length = p.getSize := by
  simp [VerifyInputResultPacket.toWriter, VerifyInputResultPacket.getSize,
    writeU8_length]

theorem verifyInputResultPacket_trunc (p : VerifyInputResultPacket) :
    VerifyInputResultPacket.fromReader ((p.toWriter).dropLast) = none := by
  simp [VerifyInputResultPacket.fromReader,
    VerifyInputResultPacket.toWriter, readU8_trunc]

theorem ecVerifyResultPacket_consume (p : ECVerifyResultPacket)
    (rest : Bytes) :
    ECVerifyResultPacket.fromReader (p.toWriter ++ rest)
      = some (p, rest) := by
  match p with
  | ⟨true⟩ =>
      simp [ECVerifyResultPacket.fromReader, ECVerifyResultPacket.toWriter,
        readU8_writeU8 1 rest (by norm_num)]
  | ⟨false⟩ =>
      simp [ECVerifyResultPacket.fromReader, ECVerifyResultPacket.toWriter,
        readU8_writeU8 0 rest (by norm_num)]

theorem ecVerifyResultPacket_size_eq (p : ECVerifyResultPacket) :
    (p.toWriter).length = p.getSize := by
  simp [ECVerifyResultPacket.toWriter, ECVerifyResultPacket.getSize,
    writeU8_length]

theorem ecVerifyResultPacket_trunc (p : ECVerifyResultPacket) :
    ECVerifyResultPacket.fromReader ((p.toWriter).dropLast) = none := by
  simp [ECVerifyResultPacket.fromReader, ECVerifyResultPacket.toWriter,
    readU8_trunc]

theorem ecVerifyPacket_consume (p : ECVerifyPacket) (h : p.OK)
    (rest : Bytes) :
    ECVerifyPacket.fromReader (p.toWriter ++ rest) = some (p, rest) := by
  simp [ECVerifyPacket.fromReader, ECVerifyPacket.toWriter,
    List.append_assoc, readVarBytes_append p.msg _ h.1.1,
    readVarBytes_append p.sig _ h.2.1.1, readVarBytes_append p.key _ h.2.2.1]

theorem ecVerifyPacket_size_eq (p : ECVerifyPacket) :
    (p.toWriter).length = p.getSize := by
  simp only [ECVerifyPacket.toWriter, ECVerifyPacket.getSize,
    List.length_append, writeVarBytes_length]

theorem ecVerifyPacket_trunc (p : ECVerifyPacket) (h : p.OK) :
    ECVerifyPacket.fromReader ((p.toWriter).dropLast) = none := by
  unfold ECVerifyPacket.toWriter
  rw [List.append_assoc,
    dropLast_append_ne _ _ (by
      intro hc
      exact writeVarBytes_ne_nil p.sig (List.append_eq_nil.mp hc).1),
    dropLast_append_ne _ _ (writeVarBytes_ne_nil p.key)]
  simp [ECVerifyPacket.fromReader, readVarBytes_append p.msg _ h.1.1,
    readVarBytes_append p.sig _ h.2.1.1,
    readVarBytes_dropLast p.key h.2.2.1]

theorem ecSignPacket_consume (p : ECSignPacket) (h : p.OK) (rest : Bytes) :
    ECSignPacket.fromReader (p.toWriter ++ rest) = some (p, rest) := by
  simp [ECSignPacket.fromReader, ECSignPacket.toWriter, List.append_assoc,
    readVarBytes_append p.msg _ h.1.1, readVarBytes_append p.key _ h.2.1]

theorem ecSignPacket_size_eq (p : ECSignPacket) :
    (p.toWriter).length = p.getSize := by
  simp [ECSignPacket.toWriter, ECSignPacket.getSize, writeVarBytes_length]

theorem ecSignPacket_trunc (p : ECSignPacket) (h : p.OK) :
    ECSignPacket.fromReader ((p.toWriter).dropLast) = none := by
  unfold ECSignPacket.toWriter
  rw [dropLast_append_ne _ _ (writeVarBytes_ne_nil p.key)]
  simp [ECSignPacket.fromReader, readVarBytes_append p.msg _ h.1.1,
    readVarBytes_dropLast p.key h.2.1]

theorem ecSignResultPacket_consume (p : ECSignResultPacket) (h : p.OK)
    (rest : Bytes) :
    ECSignResultPacket.fromReader (p.toWriter ++ rest) = some (p, rest) := by
  simp [ECSignResultPacket.fromReader, ECSignResultPacket.toWriter,
    readVarBytes_append p.sig rest h.1]

theorem ecSignResultPacket_size_eq (p : ECSignResultPacket) :
    (p.toWriter).length = p.getSize := by
  simp [ECSignResultPacket.toWriter, ECSignResultPacket.getSize,
    writeVarBytes_length]

theorem ecSignResultPacket_trunc (p : ECSignResultPacket) (h : p.OK) :
    ECSignResultPacket.fromReader ((p.toWriter).dropLast) = none := by
  simp [ECSignResultPacket.fromReader, ECSignResultPacket.toWriter,
    readVarBytes_dropLast p.sig h.1]

theorem scryptResultPacket_consume (p : ScryptResultPacket) (h : p.OK)
    (rest : Bytes) :
    ScryptResultPacket.fromReader (p.toWriter ++ rest) = some (p, rest) := by
  simp [ScryptResultPacket.fromReader, ScryptResultPacket.toWriter,
    readVarBytes_append p.key rest h.1]

theorem scryptResultPacket_size_eq (p : ScryptResultPacket) :
    (p.toWriter).length = p.getSize := by
  simp [ScryptResultPacket.toWriter, ScryptResultPacket.getSize,
    writeVarBytes_length]

theorem scryptResultPacket_trunc (p : ScryptResultPacket) (h : p.OK) :
    ScryptResultPacket.fromReader ((p.toWriter).dropLast) = none := by
  simp [ScryptResultPacket.fromReader, ScryptResultPacket.toWriter,
    readVarBytes_dropLast p.key h.1]

theorem verifyPacket_consume (p : VerifyPacket) (h : p.OK)
    (hc : p.flags ≠ some (-1)) (rest : Bytes) :
    VerifyPacket.fromReader (p.toWriter ++ rest) = some (p, rest) := by
  obtain ⟨tx, view, flags⟩ := p
  match flags with
  | none =>
      have h32 := read32_write32 (-1) rest (by norm_num) (by norm_num)
      simp [VerifyPacket.fromReader, VerifyPacket.toWriter,
        List.append_assoc, tx_consume tx h.1, coinView_consume view h.2.1,
        h32]
  | some f =>
      have hb : -(2 ^ 31) ≤ f ∧ f < 2 ^ 31 := h.2.2
      have hf1 : f ≠ -1 := by
        intro he
        exact hc (by rw [he])
      have h32 := read32_write32 f rest hb.1 hb.2
      simp [VerifyPacket.fromReader, VerifyPacket.toWriter,
        List.append_assoc, tx_consume tx h.1, coinView_consume view h.2.1,
        h32, hf1]

theorem verifyPacket_size_eq (p : VerifyPacket) :
    (p.toWriter).length = p.getSize := by
  simp only [VerifyPacket.toWriter, VerifyPacket.getSize,
    List.length_append, tx_writer_length, coinView_writer_length,
    write32_length]

theorem verifyPacket_trunc (p : VerifyPacket) (h : p.OK) :
    VerifyPacket.fromReader ((p.toWriter).dropLast) = none := by
  obtain ⟨tx, view, flags⟩ := p
  unfold VerifyPacket.toWriter
  rw [List.append_assoc,
    dropLast_append_ne _ _ (by
      intro hcon
      exact coinView_writer_ne_nil view (List.append_eq_nil.mp hcon).1),
    dropLast_append_ne _ _ (write32_ne_nil _)]
  simp [VerifyPacket.fromReader, tx_consume tx h.1,
    coinView_consume view h.2.1, read32_trunc]

theorem verifyInputPacket_consume (p : VerifyInputPacket) (h : p.OK)
    (hc : p.flags ≠ some (-1)) (rest : Bytes) :
    VerifyInputPacket.fromReader (p.toWriter ++ rest) = some (p, rest) := by
  obtain ⟨tx, idx, ⟨cv, cs⟩, flags⟩ := p
  match flags with
  | none =>
      have h32 := read32_write32 (-1) rest (by norm_num) (by norm_num)
      simp [VerifyInputPacket.fromReader, VerifyInputPacket.toWriter,
        List.append_assoc, tx_consume tx h.1,
        readVarint_append idx _ h.2.1, readVarint_append cv _ h.2.2.1.1,
        script_consume cs h.2.2.1.2, h32]
  | some f =>
      have hb : -(2 ^ 31) ≤ f ∧ f < 2 ^ 31 := h.2.2.2
      have hf1 : f ≠ -1 := by
        intro he
        exact hc (by rw [he])
      have h32 := read32_write32 f rest hb.1 hb.2
      simp [VerifyInputPacket.fromReader, VerifyInputPacket.toWriter,
        List.append_assoc, tx_consume tx h.1,
        readVarint_append idx _ h.2.1, readVarint_append cv _ h.2.2.1.1,
        script_consume cs h.2.2.1.2, h32, hf1]

theorem verifyInputPacket_size_eq (p : VerifyInputPacket) :
    (p.toWriter).length = p.getSize := by
  simp only [VerifyInputPacket.toWriter, VerifyInputPacket.getSize,
    List.length_append, tx_writer_length, writeVarint_length,
    script_writer_length, write32_length]

theorem verifyInputPacket_trunc (p : VerifyInputPacket) (h : p.OK) :
    VerifyInputPacket.fromReader ((p.toWriter).dropLast) = none := by
  obtain ⟨tx, idx, ⟨cv, cs⟩, flags⟩ := p
  unfold VerifyInputPacket.toWriter
  rw [List.append_assoc, List.append_assoc, List.append_assoc,
    dropLast_append_ne _ _ (by
      intro hcon
      exact writeVarint_ne_nil idx (List.append_eq_nil.mp hcon).1),
    dropLast_append_ne _ _ (by
      intro hcon
      exact writeVarint_ne_nil cv (List.append_eq_nil.mp hcon).1),
    dropLast_append_ne _ _ (by
      intro hcon
      exact script_writer_ne_nil cs (List.append_eq_nil.mp hcon).1),
    dropLast_append_ne _ _ (write32_ne_nil _)]
  simp [VerifyInputPacket.fromReader, tx_consume tx h.1,
    readVarint_append idx _ h.2.1, readVarint_append cv _ h.2.2.1.1,
    script_consume cs h.2.2.1.2, read32_trunc]

theorem signPacket_consume (p : SignPacket) (h : p.OK) (rest : Bytes) :
    SignPacket.fromReader (p.toWriter ++ rest) = some (p, rest) := by
  obtain ⟨tx, view, rings, ty⟩ := p
  have hrc := readCount_append KeyRing.fromReader KeyRing.toWriter rings
    (fun x hx rs => keyRing_consume x (h.2.2.2.1 x hx) rs)
    (writeU8 ty ++ rest)
  simp [SignPacket.fromReader, SignPacket.toWriter, List.append_assoc,
    mtx_consume tx h.1, coinView_consume view h.2.1,
    readVarint_append rings.length _ h.2.2.1, hrc,
    readU8_writeU8 ty _ h.2.2.2.2]

theorem signPacket_size_eq (p : SignPacket) :
    (p.toWriter).length = p.getSize := by
  simp only [SignPacket.toWriter, SignPacket.getSize, List.length_append,
    mtx_writer_length, coinView_writer_length, writeVarint_length,
    writeU8_length, List.length_flatten, List.map_map]
  have hsum : ∀ l : List KeyRing,
      (List.map (List.length ∘ KeyRing.toWriter) l).sum
        = (l.map KeyRing.getSize).sum := by
    intro l
    induction l with
    | nil => rfl
    | cons x xs ih => simp [Function.comp, keyRing_writer_length, ih]
  rw [hsum]

theorem append_ne_nil_left {α : Type} (a b : List α) (h : a ≠ []) :
    a ++ b ≠ [] := by
  intro hc
  exact h (List.append_eq_nil.mp hc).1

theorem append_ne_nil_right {α : Type} (a b : List α) (h : b ≠ []) :
    a ++ b ≠ [] := by
  intro hc
  exact h (List.append_eq_nil.mp hc).2

theorem signPacket_trunc (p : SignPacket) (h : p.OK) :
    SignPacket.fromReader ((p.toWriter).dropLast) = none := by
  obtain ⟨tx, view, rings, ty⟩ := p
  have hrc := readCount_append KeyRing.fromReader KeyRing.toWriter rings
    (fun x hx rs => keyRing_consume x (h.2.2.2.1 x hx) rs)
    ((writeU8 ty).dropLast)
  unfold SignPacket.toWriter
  rw [List.append_assoc, List.append_assoc, List.append_assoc,
    dropLast_append_ne _ _
      (append_ne_nil_left _ _ (coinView_writer_ne_nil view)),
    dropLast_append_ne _ _
      (append_ne_nil_left _ _ (writeVarint_ne_nil rings.length)),
    dropLast_append_ne _ _ (append_ne_nil_right _ _ (writeU8_ne_nil ty)),
    dropLast_append_ne _ _ (writeU8_ne_nil ty)]
  simp [SignPacket.fromReader, List.append_assoc, mtx_consume tx h.1,
    coinView_consume view h.2.1, readVarint_append rings.length _ h.2.2.1,
    hrc, readU8_trunc]

theorem signResultPacket_consume (p : SignResultPacket) (h : p.OK)
    (rest : Bytes) :
    SignResultPacket.fromReader (p.toWriter ++ rest) = some (p, rest) := by
  obtain ⟨total, scr, wit⟩ := p
  have hlen : scr.length = wit.length := h.2.1
  have hzlen : (scr.zip wit).length = scr.length := by
    rw [List.length_zip, hlen, Nat.min_self]
  have hrc := readCount_append readPair
    (fun q => q.1.toWriter ++ q.2.toWriter) (scr.zip wit)
    (fun q hq rs => readPair_consume q.1 q.2
      (h.2.2.2.1 q.1 (List.of_mem_zip hq).1)
      (h.2.2.2.2 q.2 (List.of_mem_zip hq).2) rs) rest
  rw [hzlen] at hrc
  have hfst : (scr.zip wit).map Prod.fst = scr :=
    List.map_fst_zip scr wit (le_of_eq hlen)
  have hsnd : (scr.zip wit).map Prod.snd = wit :=
    List.map_snd_zip scr wit (le_of_eq hlen.symm)
  simp [SignResultPacket.fromReader, SignResultPacket.toWriter,
    List.append_assoc, readVarint_append total _ h.1,
    readVarint_append scr.length _ h.2.2.1, hrc, hfst, hsnd]

theorem signResultPacket_size_eq (p : SignResultPacket) :
    (p.toWriter).length = p.getSize := by
  simp only [SignResultPacket.toWriter, SignResultPacket.getSize,
    List.length_append, writeVarint_length, List.length_flatten,
    List.map_map]
  have hsum : ∀ l : List (Script × Witness),
      (List.map (List.length ∘ fun q => q.1.toWriter ++ q.2.toWriter) l).sum
        = (l.map fun q => q.1.getVarSize + q.2.getVarSize).sum := by
    intro l
    induction l with
    | nil => rfl
    | cons x xs ih =>
        simp [Function.comp, script_writer_length, witness_writer_length, ih]
  rw [hsum]

theorem signResultPacket_trunc (p : SignResultPacket) (h : p.OK) :
    SignResultPacket.fromReader ((p.toWriter).dropLast) = none := by
  obtain ⟨total, scr, wit⟩ := p
  have hlen : scr.length = wit.length := h.2.1
  unfold SignResultPacket.toWriter
  cases scr with
  | nil =>
      cases wit with
      | nil =>
          simp only [List.zip_nil_left, List.map_nil, List.flatten_nil,
            List.append_nil, List.length_nil]
          rw [dropLast_append_ne _ _ (writeVarint_ne_nil 0)]
          simp [SignResultPacket.fromReader, readVarint_append total _ h.1,
            readVarint_dropLast 0]
      | cons w wit2 => simp at hlen
  | cons s scr2 =>
      cases wit with
      | nil => simp at hlen
      | cons w wit2 =>
          have hzlen2 : ((s :: scr2).zip (w :: wit2)).length
              = (s :: scr2).length := by
            rw [List.length_zip, hlen, Nat.min_self]
          have hcount := readCount_dropLast readPair
            (fun q => q.1.toWriter ++ q.2.toWriter)
            ((s :: scr2).zip (w :: wit2)) (by simp)
            (fun q hq rs => readPair_consume q.1 q.2
              (h.2.2.2.1 q.1 (List.of_mem_zip hq).1)
              (h.2.2.2.2 q.2 (List.of_mem_zip hq).2) rs)
            (fun q _ => pair_writer_ne_nil q.1 q.2)
            (fun q hq => readPair_trunc q.1 q.2
              (h.2.2.2.1 q.1 (List.of_mem_zip hq).1)
              (h.2.2.2.2 q.2 (List.of_mem_zip hq).2))
          rw [hzlen2] at hcount
          have hmem : (s, w) ∈ (s :: scr2).zip (w :: wit2) := by
            rw [List.zip_cons_cons]
            exact List.mem_cons_self _ _
          have hflat := flatten_ne_nil
            ((((s :: scr2).zip (w :: wit2)).map
              fun q => q.1.toWriter ++ q.2.toWriter))
            (s.toWriter ++ w.toWriter)
            (List.mem_map_of_mem _ hmem) (pair_writer_ne_nil s w)
          rw [List.append_assoc,
            dropLast_append_ne _ _
              (append_ne_nil_left _ _ (writeVarint_ne_nil (s :: scr2).length)),
            dropLast_append_ne _ _ hflat]
          unfold SignResultPacket.fromReader
          rw [readVarint_append total _ h.1]
          simp only [Option.some_bind]
          rw [readVarint_append (s :: scr2).length _ h.2.2.1]
          simp only [Option.some_bind]
          rw [hcount]
          rfl

theorem signInputPacket_consume (p : SignInputPacket) (h : p.OK)
    (rest : Bytes) :
    SignInputPacket.fromReader (p.toWriter ++ rest) = some (p, rest) := by
  obtain ⟨tx, idx, ⟨cv, cs⟩, ring, ty⟩ := p
  simp [SignInputPacket.fromReader, SignInputPacket.toWriter,
    List.append_assoc, mtx_consume tx h.1, readVarint_append idx _ h.2.1,
    readVarint_append cv _ h.2.2.1.1, script_consume cs h.2.2.1.2,
    keyRing_consume ring h.2.2.2.1, readU8_writeU8 ty _ h.2.2.2.2]

theorem signInputPacket_size_eq (p : SignInputPacket) :
    (p.toWriter).length = p.getSize := by
  simp only [SignInputPacket.toWriter, SignInputPacket.getSize,
    List.length_append, mtx_writer_length, writeVarint_length,
    script_writer_length, keyRing_writer_length, writeU8_length]

theorem signInputPacket_trunc (p : SignInputPacket) (h : p.OK) :
    SignInputPacket.fromReader ((p.toWriter).dropLast) = none := by
  obtain ⟨tx, idx, ⟨cv, cs⟩, ring, ty⟩ := p
  unfold SignInputPacket.toWriter
  rw [List.append_assoc, List.append_assoc, List.append_assoc,
    List.append_assoc,
    dropLast_append_ne _ _ (by
      intro hcon
      exact writeVarint_ne_nil idx (List.append_eq_nil.mp hcon).1),
    dropLast_append_ne _ _ (by
      intro hcon
      exact writeVarint_ne_nil cv (List.append_eq_nil.mp hcon).1),
    dropLast_append_ne _ _ (by
      intro hcon
      exact script_writer_ne_nil cs (List.append_eq_nil.mp hcon).1),
    dropLast_append_ne _ _ (by
      intro hcon
      exact keyRing_writer_ne_nil ring (List.append_eq_nil.mp hcon).1),
    dropLast_append_ne _ _ (writeU8_ne_nil ty)]
  simp [SignInputPacket.fromReader, mtx_consume tx h.1,
    readVarint_append idx _ h.2.1, readVarint_append cv _ h.2.2.1.1,
    script_consume cs h.2.2.1.2, keyRing_consume ring h.2.2.2.1,
    readU8_trunc]

theorem signInputResultPacket_consume (p : SignInputResultPacket)
    (h : p.OK) (rest : Bytes) :
    SignInputResultPacket.fromReader (p.toWriter ++ rest)
      = some (p, rest) := by
  obtain ⟨val, scr, wit⟩ := p
  match val with
  | true =>
      simp [SignInputResultPacket.fromReader,
        SignInputResultPacket.toWriter, List.append_assoc,
        readU8_writeU8 1 _ (by norm_num), script_consume scr h.1,
        witness_consume wit h.2]
  | false =>
      simp [SignInputResultPacket.fromReader,
        SignInputResultPacket.toWriter, List.append_assoc,
        readU8_writeU8 0 _ (by norm_num), script_consume scr h.1,
        witness_consume wit h.2]

theorem signInputResultPacket_size_eq (p : SignInputResultPacket) :
    (p.toWriter).length = p.getSize := by
  simp only [SignInputResultPacket.toWriter, SignInputResultPacket.getSize,
    List.length_append, writeU8_length, script_writer_length,
    witness_writer_length]

theorem signInputResultPacket_trunc (p : SignInputResultPacket)
    (h : p.OK) :
    SignInputResultPacket.fromReader ((p.toWriter).dropLast) = none := by
  obtain ⟨val, scr, wit⟩ := p
  unfold SignInputResultPacket.toWriter
  rw [List.append_assoc,
    dropLast_append_ne _ _ (by
      intro hcon
      exact script_writer_ne_nil scr (List.append_eq_nil.mp hcon).1),
    dropLast_append_ne _ _ (witness_writer_ne_nil wit)]
  match val with
  | true =>
      simp [SignInputResultPacket.fromReader,
        readU8_writeU8 1 _ (by norm_num), script_consume scr h.1,
        witness_trunc wit h.2]
  | false =>
      simp [SignInputResultPacket.fromReader,
        readU8_writeU8 0 _ (by norm_num), script_consume scr h.1,
        witness_trunc wit h.2]

theorem minePacket_consume (p : MinePacket) (h : p.OK) (rest : Bytes) :
    MinePacket.fromReader (p.toWriter ++ rest)
      = some (⟨p.data, p.target, ((p.min % 2 ^ 32).toNat : Int),
          ((p.max % 2 ^ 32).toNat : Int)⟩, rest) := by
  obtain ⟨d, t, mn, mx⟩ := p
  have hrd : ∀ r2 : Bytes, readBytes 80 (d ++ r2) = some (d, r2) := by
    intro r2
    have hx := readBytes_append d r2
    rw [h.1] at hx
    exact hx
  have hrt : ∀ r2 : Bytes, readBytes 32 (t ++ r2) = some (t, r2) := by
    intro r2
    have hx := readBytes_append t r2
    rw [h.2.2.1] at hx
    exact hx
  simp only [MinePacket.toWriter, MinePacket.fromReader, List.append_assoc]
  rw [hrd]
  simp only [Option.some_bind]
  rw [hrt]
  simp only [Option.some_bind]
  rw [readU32_writeU32 mn]
  simp only [Option.some_bind]
  rw [readU32_writeU32 mx]
  rfl

theorem minePacket_size_eq (p : MinePacket) (h : p.OK) :
    (p.toWriter).length = p.getSize := by
  simp only [MinePacket.toWriter, MinePacket.getSize, List.length_append,
    writeU32_length]
  rw [h.1, h.2.2.1]

theorem minePacket_trunc (p : MinePacket) (h : p.OK) :
    MinePacket.fromReader ((p.toWriter).dropLast) = none := by
  obtain ⟨d, t, mn, mx⟩ := p
  unfold MinePacket.toWriter
  rw [List.append_assoc, List.append_assoc,
    dropLast_append_ne _ _ (by
      intro hcon
      have ht : t = [] := (List.append_eq_nil.mp hcon).1
      have := congrArg List.length ht
      rw [h.2.2.1] at this
      simp at this),
    dropLast_append_ne _ _ (by
      intro hcon
      exact writeU32_ne_nil mn (List.append_eq_nil.mp hcon).1),
    dropLast_append_ne _ _ (writeU32_ne_nil mx)]
  have hrd : ∀ r2 : Bytes, readBytes 80 (d ++ r2) = some (d, r2) := by
    intro r2
    have hx := readBytes_append d r2
    rw [h.1] at hx
    exact hx
  have hrt : ∀ r2 : Bytes, readBytes 32 (t ++ r2) = some (t, r2) := by
    intro r2
    have hx := readBytes_append t r2
    rw [h.2.2.1] at hx
    exact hx
  simp only [MinePacket.fromReader]
  rw [hrd]
  simp only [Option.some_bind]
  rw [hrt]
  simp only [Option.some_bind]
  rw [readU32_writeU32 mn]
  simp only [Option.some_bind]
  rw [readU32_trunc mx]
  rfl

theorem mineResultPacket_consume (p : MineResultPacket) (rest : Bytes) :
    MineResultPacket.fromReader (p.toWriter ++ rest)
      = some (⟨if (p.nonce % 2 ^ 32).toNat = 2 ^ 32 - 1 then -1
          else ((p.nonce % 2 ^ 32).toNat : Int)⟩, rest) := by
  simp only [MineResultPacket.fromReader, MineResultPacket.toWriter]
  rw [readU32_writeU32 p.nonce]
  rfl

theorem mineResultPacket_size_eq (p : MineResultPacket) :
    (p.toWriter).length = p.getSize := by
  simp [MineResultPacket.toWriter, MineResultPacket.getSize,
    writeU32_length]

theorem mineResultPacket_trunc (p : MineResultPacket) :
    MineResultPacket.fromReader ((p.toWriter).dropLast) = none := by
  simp only [MineResultPacket.fromReader, MineResultPacket.toWriter]
  rw [readU32_trunc p.nonce]
  rfl

theorem scryptPacket_consume (q : ScryptPacket) (h : q.OK) (rest : Bytes) :
    ScryptPacket.fromReader (q.toWriter ++ rest) = some (q, rest) := by
  obtain ⟨pw, sl, N, r, pp, ln⟩ := q
  simp only [ScryptPacket.fromReader, ScryptPacket.toWriter,
    List.append_assoc]
  rw [readVarBytes_append pw _ h.1.1]
  simp only [Option.some_bind]
  rw [readVarBytes_append sl _ h.2.1.1]
  simp only [Option.some_bind]
  rw [readU32_writeU32 N]
  simp only [Option.some_bind]
  rw [readU32_writeU32 r]
  simp only [Option.some_bind]
  rw [readU32_writeU32 pp]
  simp only [Option.some_bind]
  rw [readU32_writeU32 ln]
  simp only [Option.map_some']
  rw [emod32_toNat_of_range N h.2.2.1.1 h.2.2.1.2,
    emod32_toNat_of_range r h.2.2.2.1.1 h.2.2.2.1.2,
    emod32_toNat_of_range pp h.2.2.2.2.1.1 h.2.2.2.2.1.2,
    emod32_toNat_of_range ln h.2.2.2.2.2.1 h.2.2.2.2.2.2]

theorem scryptPacket_size_eq (q : ScryptPacket) :
    (q.toWriter).length = q.getSize := by
  simp only [ScryptPacket.toWriter, ScryptPacket.getSize,
    List.length_append, writeVarBytes_length, writeU32_length]

theorem scryptPacket_trunc (q : ScryptPacket) (h : q.OK) :
    ScryptPacket.fromReader ((q.toWriter).dropLast) = none := by
  obtain ⟨pw, sl, N, r, pp, ln⟩ := q
  unfold ScryptPacket.toWriter
  rw [List.append_assoc, List.append_assoc, List.append_assoc,
    List.append_assoc,
    dropLast_append_ne _ _ (by
      intro hcon
      exact writeVarBytes_ne_nil sl (List.append_eq_nil.mp hcon).1),
    dropLast_append_ne _ _ (by
      intro hcon
      exact writeU32_ne_nil N (List.append_eq_nil.mp hcon).1),
    dropLast_append_ne _ _ (by
      intro hcon
      exact writeU32_ne_nil r (List.append_eq_nil.mp hcon).1),
    dropLast_append_ne _ _ (by
      intro hcon
      exact writeU32_ne_nil pp (List.append_eq_nil.mp hcon).1),
    dropLast_append_ne _ _ (writeU32_ne_nil ln)]
  simp only [ScryptPacket.fromReader]
  rw [readVarBytes_append pw _ h.1.1]
  simp only [Option.some_bind]
  rw [readVarBytes_append sl _ h.2.1.1]
  simp only [Option.some_bind]
  rw [readU32_writeU32 N]
  simp only [Option.some_bind]
  rw [readU32_writeU32 r]
  simp only [Option.some_bind]
  rw [readU32_writeU32 pp]
  simp only [Option.some_bind]
  rw [readU32_trunc ln]
  rfl

/-! Identity generator lemmas. -/

theorem counterAfter_eq (k : Nat) : counterAfter k = k := by
  induction k with
  | zero => rfl
  | succ k ih => simp [counterAfter, nextPacketId, ih]

theorem idOf_eq (k : Nat) : idOf k = (k + 1) % 2 ^ 32 := by
  simp [idOf, nextPacketId, counterAfter_eq]

/-! Claim theorems. -/

/-- Claim C6: constructing N packets in sequence within one process yields
N strictly increasing identity values modulo 2^32 wraparound; two packets
constructed in sequence never receive the same identity except after a
full 2^32 wraparound. The first conjunct is the successor law (each next
identity is the previous plus one, modulo 2^32); the second says any two
constructions fewer than 2^32 apart get distinct identities. -/
theorem identity_monotonic :
    (∀ k : Nat, idOf (k + 1) = (idOf k + 1) % 2 ^ 32) ∧
      ∀ i j : Nat, i < j → j - i < 2 ^ 32 → idOf i ≠ idOf j := by
  constructor
  · intro k
    rw [idOf_eq, idOf_eq]
    omega
  · intro i j hij hwin
    rw [idOf_eq, idOf_eq]
    omega

/-- Witness for claim C6 at concrete construction indices. -/
theorem identity_monotonic_witness :
    idOf 1 = (idOf 0 + 1) % 2 ^ 32 ∧ (0 < 2 ∧ 2 - 0 < 2 ^ 32) ∧
      idOf 0 ≠ idOf 2 :=
  ⟨identity_monotonic.1 0, ⟨by norm_num, by norm_num⟩,
    identity_monotonic.2 0 2 (by norm_num) (by norm_num)⟩

/-- Claim C7 counterexample: the source pre-increments the counter
(this.id = ++Packet.id), so the first packet constructed in a fresh
process receives identity 1, not 0 as the claim states. -/
theorem first_identity_not_zero : idOf 0 ≠ 0 := by decide

/-- Claim C7 amended: the identity counter starts at 0 on process start,
and the first packet constructed receives identity 1 (the counter is
pre-incremented at each construction). -/
theorem first_identity_one : counterAfter 0 = 0 ∧ idOf 0 = 1 := by
  constructor
  · rfl
  · decide

/-- Claim C2: for every packet of every variant with valid field values,
the number of bytes its toWriter emits equals the value its getSize
reports, with no second encoding pass. -/
theorem serialize_length_eq_getSize (p : WPacket) (hOK : p.OK) :
    p.serialize.length = p.getSize := by
  cases p with
  | event q => exact eventPacket_size_eq q
  | log q => exact logPacket_size_eq q
  | error q => exact errorPacket_size_eq q
  | errorResult q => exact errorResultPacket_size_eq q
  | verify q => exact verifyPacket_size_eq q
  | verifyResult q => exact verifyResultPacket_size_eq q
  | sign q => exact signPacket_size_eq q
  | signResult q => exact signResultPacket_size_eq q
  | verifyInput q => exact verifyInputPacket_size_eq q
  | verifyInputResult q => exact verifyInputResultPacket_size_eq q
  | signInput q => exact signInputPacket_size_eq q
  | signInputResult q => exact signInputResultPacket_size_eq q
  | ecVerify q => exact ecVerifyPacket_size_eq q
  | ecVerifyResult q => exact ecVerifyResultPacket_size_eq q
  | ecSign q => exact ecSignPacket_size_eq q
  | ecSignResult q => exact ecSignResultPacket_size_eq q
  | mine q => exact minePacket_size_eq q hOK
  | mineResult q => exact mineResultPacket_size_eq q
  | scrypt q => exact scryptPacket_size_eq q
  | scryptResult q => exact scryptResultPacket_size_eq q

/-- Witness for claim C2 at a concrete MinePacket. -/
theorem serialize_length_eq_getSize_witness :
    (WPacket.mine ⟨List.replicate 80 0, List.replicate 32 255, 0,
        4294967295⟩).OK ∧
      (WPacket.mine ⟨List.replicate 80 0, List.replicate 32 255, 0,
          4294967295⟩).serialize.length
        = (WPacket.mine ⟨List.replicate 80 0, List.replicate 32 255, 0,
            4294967295⟩).getSize :=
  ⟨by decide, serialize_length_eq_getSize _ (by decide)⟩

/-- Claim C4: SignResultPacket.inject asserts both array lengths against
the transaction's input count before touching any input, so a mismatch
fails (modelled as none) with the transaction unchanged; and
SignInputResultPacket.inject asserts the indexed input exists before
writing, so an out-of-range index fails with the transaction unchanged. -/
theorem inject_alignment :
    (∀ (p : SignResultPacket) (tx : MTX),
      p.script.length ≠ tx.inputs.length ∨
          p.witness.length ≠ tx.inputs.length →
        p.inject tx = none) ∧
      ∀ (q : SignInputResultPacket) (tx : MTX) (i : Nat),
        tx.inputs.length ≤ i → q.inject tx i = none := by
  constructor
  · intro p tx hmis
    unfold SignResultPacket.inject
    rw [if_neg]
    intro hc
    rcases hmis with hm | hm
    · exact hm hc.1
    · exact hm hc.2
  · intro q tx i hge
    unfold SignInputResultPacket.inject
    rw [if_neg]
    omega

/-- Witness for claim C4 at a concrete mismatched injection. -/
theorem inject_alignment_witness :
    ((1 ≠ 0 ∨ (1 : Nat) ≠ 0) ∧
      SignResultPacket.inject ⟨0, [⟨[]⟩], [⟨[]⟩]⟩ ⟨[], []⟩ = none) ∧
      (0 ≤ 5 ∧
        SignInputResultPacket.inject ⟨true, ⟨[]⟩, ⟨[]⟩⟩ ⟨[], []⟩ 5 = none) :=
  ⟨⟨Or.inl (by decide),
      inject_alignment.1 ⟨0, [⟨[]⟩], [⟨[]⟩]⟩ ⟨[], []⟩ (Or.inl (by decide))⟩,
    ⟨by decide,
      inject_alignment.2 ⟨true, ⟨[]⟩, ⟨[]⟩⟩ ⟨[], []⟩ 5 (by decide)⟩⟩

/-- Claim C5: decoding the serialization of any valid packet of any
variant with its last byte removed fails with a framing error (the
decoder returns none), never succeeding with wrong data. -/
theorem truncated_decode_fails (p : WPacket) (hOK : p.OK) :
    decode p.cmd (p.serialize.dropLast) = none := by
  cases p with
  | event q => simp [decode, WPacket.cmd, WPacket.serialize, eventPacket_trunc q hOK]
  | log q => simp [decode, WPacket.cmd, WPacket.serialize, logPacket_trunc q hOK]
  | error q => simp [decode, WPacket.cmd, WPacket.serialize, errorPacket_trunc q hOK]
  | errorResult q =>
      simp [decode, WPacket.cmd, WPacket.serialize, errorResultPacket_trunc q hOK]
  | verify q => simp [decode, WPacket.cmd, WPacket.serialize, verifyPacket_trunc q hOK]
  | verifyResult q =>
      simp [decode, WPacket.cmd, WPacket.serialize, verifyResultPacket_trunc q]
  | sign q => simp [decode, WPacket.cmd, WPacket.serialize, signPacket_trunc q hOK]
  | signResult q =>
      simp [decode, WPacket.cmd, WPacket.serialize, signResultPacket_trunc q hOK]
  | verifyInput q =>
      simp [decode, WPacket.cmd, WPacket.serialize, verifyInputPacket_trunc q hOK]
  | verifyInputResult q =>
      simp [decode, WPacket.cmd, WPacket.serialize, verifyInputResultPacket_trunc q]
  | signInput q =>
      simp [decode, WPacket.cmd, WPacket.serialize, signInputPacket_trunc q hOK]
  | signInputResult q =>
      simp [decode, WPacket.cmd, WPacket.serialize, signInputResultPacket_trunc q hOK]
  | ecVerify q => simp [decode, WPacket.cmd, WPacket.serialize, ecVerifyPacket_trunc q hOK]
  | ecVerifyResult q =>
      simp [decode, WPacket.cmd, WPacket.serialize, ecVerifyResultPacket_trunc q]
  | ecSign q => simp [decode, WPacket.cmd, WPacket.serialize, ecSignPacket_trunc q hOK]
  | ecSignResult q =>
      simp [decode, WPacket.cmd, WPacket.serialize, ecSignResultPacket_trunc q hOK]
  | mine q => simp [decode, WPacket.cmd, WPacket.serialize, minePacket_trunc q hOK]
  | mineResult q =>
      simp [decode, WPacket.cmd, WPacket.serialize, mineResultPacket_trunc q]
  | scrypt q => simp [decode, WPacket.cmd, WPacket.serialize, scryptPacket_trunc q hOK]
  | scryptResult q =>
      simp [decode, WPacket.cmd, WPacket.serialize, scryptResultPacket_trunc q hOK]

/-- Witness for claim C5 at a concrete EventPacket. -/
theorem truncated_decode_fails_witness :
    (WPacket.event ⟨[91, 93]⟩).OK ∧
      decode (WPacket.event ⟨[91, 93]⟩).cmd
        ((WPacket.event ⟨[91, 93]⟩).serialize.dropLast) = none :=
  ⟨by decide, truncated_decode_fails _ (by decide)⟩

theorem verifyPacket_consume_any (p : VerifyPacket) (h : p.OK)
    (rest : Bytes) :
    VerifyPacket.fromReader (p.toWriter ++ rest)
      = some (⟨p.tx, p.view,
          if p.flags.getD (-1) = -1 then none
          else some (p.flags.getD (-1))⟩, rest) := by
  obtain ⟨tx, view, flags⟩ := p
  match flags with
  | none =>
      have h32 := read32_write32 (-1) rest (by norm_num) (by norm_num)
      simp [VerifyPacket.fromReader, VerifyPacket.toWriter,
        List.append_assoc, tx_consume tx h.1, coinView_consume view h.2.1,
        h32]
  | some f =>
      have hb : -(2 ^ 31) ≤ f ∧ f < 2 ^ 31 := h.2.2
      have h32 := read32_write32 f rest hb.1 hb.2
      simp [VerifyPacket.fromReader, VerifyPacket.toWriter,
        List.append_assoc, tx_consume tx h.1, coinView_consume view h.2.1,
        h32]

theorem verifyInputPacket_consume_any (p : VerifyInputPacket) (h : p.OK)
    (rest : Bytes) :
    VerifyInputPacket.fromReader (p.toWriter ++ rest)
      = some (⟨p.tx, p.index, p.coin,
          if p.flags.getD (-1) = -1 then none
          else some (p.flags.getD (-1))⟩, rest) := by
  obtain ⟨tx, idx, ⟨cv, cs⟩, flags⟩ := p
  match flags with
  | none =>
      have h32 := read32_write32 (-1) rest (by norm_num) (by norm_num)
      simp [VerifyInputPacket.fromReader, VerifyInputPacket.toWriter,
        List.append_assoc, tx_consume tx h.1,
        readVarint_append idx _ h.2.1, readVarint_append cv _ h.2.2.1.1,
        script_consume cs h.2.2.1.2, h32]
  | some f =>
      have hb : -(2 ^ 31) ≤ f ∧ f < 2 ^ 31 := h.2.2.2
      have h32 := read32_write32 f rest hb.1 hb.2
      simp [VerifyInputPacket.fromReader, VerifyInputPacket.toWriter,
        List.append_assoc, tx_consume tx h.1,
        readVarint_append idx _ h.2.1, readVarint_append cv _ h.2.2.1.1,
        script_consume cs h.2.2.1.2, h32]

/-- Claim C1 counterexample: a MinePacket with min and max unset (-1) is a
valid value of the variant's fields, yet decoding its serialization does
not return a structurally equal packet (min and max come back as the
literal 4294967295, because MinePacket.fromRaw reads them with a plain
unsigned read and performs no sentinel conversion). -/
theorem mine_unset_roundtrip_fails :
    (WPacket.mine
      ⟨List.replicate 80 0, List.replicate 32 0, -1, -1⟩).OK ∧
      decode (WPacket.mine
          ⟨List.replicate 80 0, List.replicate 32 0, -1, -1⟩).cmd
          ((WPacket.mine
            ⟨List.replicate 80 0, List.replicate 32 0, -1, -1⟩).serialize)
        ≠ some (WPacket.mine
            ⟨List.replicate 80 0, List.replicate 32 0, -1, -1⟩) := by
  constructor
  · decide
  · decide

/-- Claim C1 (amended): for every packet variant and every valid value of
its fields whose sentinel-capable fields are not the on-wire alias of
another representation (no absent error type tag, flags not the explicit
-1 that encodes like null, Mine min/max not -1, MineResult nonce not
4294967295), decoding the serialized bytes through the command-code
dispatch returns a structurally equal packet. -/
theorem roundtrip_canon (p : WPacket) (hOK : p.OK) (hC : p.Canon) :
    decode p.cmd p.serialize = some p := by
  cases p with
  | event q =>
      have hc := eventPacket_consume q hOK []
      rw [List.append_nil] at hc
      simp [decode, WPacket.cmd, WPacket.serialize, hc]
  | log q =>
      have hc := logPacket_consume q hOK []
      rw [List.append_nil] at hc
      simp [decode, WPacket.cmd, WPacket.serialize, hc]
  | error q =>
      obtain ⟨⟨msg, stk, ty⟩⟩ := q
      match ty with
      | some t =>
          have hc := errorPacket_consume ⟨⟨msg, stk, some t⟩⟩ hOK []
          rw [List.append_nil] at hc
          simp [ErrObj.typeText] at hc
          simp [decode, WPacket.cmd, WPacket.serialize, hc]
      | none => exact absurd hC (by simp [WPacket.Canon])
  | errorResult q =>
      obtain ⟨⟨msg, stk, ty⟩⟩ := q
      match ty with
      | some t =>
          have hc := errorResultPacket_consume ⟨⟨msg, stk, some t⟩⟩ hOK []
          rw [List.append_nil] at hc
          simp [ErrObj.typeText] at hc
          simp [decode, WPacket.cmd, WPacket.serialize, hc]
      | none => exact absurd hC (by simp [WPacket.Canon])
  | verify q =>
      have hc := verifyPacket_consume q hOK hC []
      rw [List.append_nil] at hc
      simp [decode, WPacket.cmd, WPacket.serialize, hc]
  | verifyResult q =>
      have hc := verifyResultPacket_consume q []
      rw [List.append_nil] at hc
      simp [decode, WPacket.cmd, WPacket.serialize, hc]
  | sign q =>
      have hc := signPacket_consume q hOK []
      rw [List.append_nil] at hc
      simp [decode, WPacket.cmd, WPacket.serialize, hc]
  | signResult q =>
      have hc := signResultPacket_consume q hOK []
      rw [List.append_nil] at hc
      simp [decode, WPacket.cmd, WPacket.serialize, hc]
  | verifyInput q =>
      have hc := verifyInputPacket_consume q hOK hC []
      rw [List.append_nil] at hc
      simp [decode, WPacket.cmd, WPacket.serialize, hc]
  | verifyInputResult q =>
      have hc := verifyInputResultPacket_consume q []
      rw [List.append_nil] at hc
      simp [decode, WPacket.cmd, WPacket.serialize, hc]
  | signInput q =>
      have hc := signInputPacket_consume q hOK []
      rw [List.append_nil] at hc
      simp [decode, WPacket.cmd, WPacket.serialize, hc]
  | signInputResult q =>
      have hc := signInputResultPacket_consume q hOK []
      rw [List.append_nil] at hc
      simp [decode, WPacket.cmd, WPacket.serialize, hc]
  | ecVerify q =>
      have hc := ecVerifyPacket_consume q hOK []
      rw [List.append_nil] at hc
      simp [decode, WPacket.cmd, WPacket.serialize, hc]
  | ecVerifyResult q =>
      have hc := ecVerifyResultPacket_consume q []
      rw [List.append_nil] at hc
      simp [decode, WPacket.cmd, WPacket.serialize, hc]
  | ecSign q =>
      have hc := ecSignPacket_consume q hOK []
      rw [List.append_nil] at hc
      simp [decode, WPacket.cmd, WPacket.serialize, hc]
  | ecSignResult q =>
      have hc := ecSignResultPacket_consume q hOK []
      rw [List.append_nil] at hc
      simp [decode, WPacket.cmd, WPacket.serialize, hc]
  | mine q =>
      obtain ⟨d, t, mn, mx⟩ := q
      have hc := minePacket_consume ⟨d, t, mn, mx⟩ hOK []
      rw [List.append_nil] at hc
      have hC2 : mn ≠ -1 ∧ mx ≠ -1 := hC
      have hOK2 : MinePacket.OK ⟨d, t, mn, mx⟩ := hOK
      have hb1 : 0 ≤ mn ∧ mn < 2 ^ 32 := by
        rcases hOK2.2.2.2.2.1 with h1 | h1
        · exact absurd h1 hC2.1
        · exact h1
      have hb2 : 0 ≤ mx ∧ mx < 2 ^ 32 := by
        rcases hOK2.2.2.2.2.2 with h1 | h1
        · exact absurd h1 hC2.2
        · exact h1
      rw [emod32_toNat_of_range mn hb1.1 hb1.2,
        emod32_toNat_of_range mx hb2.1 hb2.2] at hc
      simp [decode, WPacket.cmd, WPacket.serialize, hc]
  | mineResult q =>
      obtain ⟨nonce⟩ := q
      have hc := mineResultPacket_consume ⟨nonce⟩ []
      rw [List.append_nil] at hc
      have hOK2 : nonce = -1 ∨ 0 ≤ nonce ∧ nonce < 2 ^ 32 := hOK
      have hC2 : nonce ≠ 2 ^ 32 - 1 := hC
      rcases hOK2 with h1 | h1
      · subst h1
        have hval : (((-1 : Int) % 2 ^ 32).toNat) = 2 ^ 32 - 1 := by decide
        rw [hval] at hc
        simp only [if_pos rfl] at hc
        simp [decode, WPacket.cmd, WPacket.serialize, hc]
      · have hmod := emod32_toNat_of_range nonce h1.1 h1.2
        have hne : ((nonce % 2 ^ 32).toNat) ≠ 2 ^ 32 - 1 := by
          intro he
          apply hC2
          omega
        rw [if_neg hne, hmod] at hc
        simp [decode, WPacket.cmd, WPacket.serialize, hc]
  | scrypt q =>
      have hc := scryptPacket_consume q hOK []
      rw [List.append_nil] at hc
      simp [decode, WPacket.cmd, WPacket.serialize, hc]
  | scryptResult q =>
      have hc := scryptResultPacket_consume q hOK []
      rw [List.append_nil] at hc
      simp [decode, WPacket.cmd, WPacket.serialize, hc]

/-- Witness for claim C1 at a concrete LogPacket. -/
theorem roundtrip_canon_witness :
    (WPacket.log ⟨[104, 105]⟩).OK ∧ (WPacket.log ⟨[104, 105]⟩).Canon ∧
      decode (WPacket.log ⟨[104, 105]⟩).cmd
          (WPacket.log ⟨[104, 105]⟩).serialize
        = some (WPacket.log ⟨[104, 105]⟩) :=
  ⟨by decide, by decide, roundtrip_canon _ (by decide) (by decide)⟩

/-- Claim C3 counterexample: the claim includes MinePacket among the
variants whose -1 sentinel must decode back to the unset representation,
but MinePacket.fromRaw reads min and max with a plain unsigned read and
no sentinel conversion, so serializing min = max = -1 as FF FF FF FF and
decoding yields the literal large unsigned value 4294967295, not -1. -/
theorem mine_sentinel_not_restored :
    decode 16 ((WPacket.mine
        ⟨List.replicate 80 0, List.replicate 32 0, -1, -1⟩).serialize)
      = some (WPacket.mine
          ⟨List.replicate 80 0, List.replicate 32 0, 4294967295,
            4294967295⟩)
    ∧ (4294967295 : Int) ≠ -1 := by
  constructor
  · decide
  · decide

/-- Claim C3 (amended): the 0xFFFFFFFF sentinel pattern decodes back to
null/unset for VerifyPacket and VerifyInputPacket (flags = null) and for
MineResultPacket (nonce = -1); MinePacket alone performs no conversion,
so its min/max of -1 decode to the literal 4294967295. -/
theorem sentinel_roundtrip_amended :
    (∀ p : VerifyPacket, p.OK → p.flags = none →
      decode 4 (WPacket.verify p).serialize = some (WPacket.verify p)) ∧
    (∀ p : VerifyInputPacket, p.OK → p.flags = none →
      decode 8 (WPacket.verifyInput p).serialize
        = some (WPacket.verifyInput p)) ∧
    (∀ p : MineResultPacket, p.nonce = -1 →
      decode 17 (WPacket.mineResult p).serialize
        = some (WPacket.mineResult p)) ∧
    ∀ p : MinePacket, p.OK → p.min = -1 → p.max = -1 →
      decode 16 (WPacket.mine p).serialize
        = some (WPacket.mine ⟨p.data, p.target, 2 ^ 32 - 1, 2 ^ 32 - 1⟩) := by
  refine ⟨?_, ?_, ?_, ?_⟩
  · intro p hOK hf
    have hc := verifyPacket_consume p hOK (by rw [hf]; simp) []
    rw [List.append_nil] at hc
    simp [decode, WPacket.serialize, hc]
  · intro p hOK hf
    have hc := verifyInputPacket_consume p hOK (by rw [hf]; simp) []
    rw [List.append_nil] at hc
    simp [decode, WPacket.serialize, hc]
  · intro p hf
    obtain ⟨nonce⟩ := p
    have hc := mineResultPacket_consume ⟨nonce⟩ []
    rw [List.append_nil] at hc
    simp only at hf
    subst hf
    have hval : (((-1 : Int) % 2 ^ 32).toNat) = 2 ^ 32 - 1 := by decide
    rw [hval] at hc
    simp only [if_pos rfl] at hc
    simp [decode, WPacket.serialize, hc]
  · intro p hOK h1 h2
    obtain ⟨d, t, mn, mx⟩ := p
    have hc := minePacket_consume ⟨d, t, mn, mx⟩ hOK []
    rw [List.append_nil] at hc
    simp only at h1 h2
    subst h1
    subst h2
    have hval : ((((-1 : Int)) % 2 ^ 32).toNat : Int) = 2 ^ 32 - 1 := by
      decide
    rw [hval] at hc
    simp [decode, WPacket.serialize, hc]

/-- Witness for claim C3 at concrete packets for all four variants. -/
theorem sentinel_roundtrip_amended_witness :
    (VerifyPacket.OK ⟨⟨[1]⟩, ⟨[2]⟩, none⟩ ∧
      decode 4 (WPacket.verify ⟨⟨[1]⟩, ⟨[2]⟩, none⟩).serialize
        = some (WPacket.verify ⟨⟨[1]⟩, ⟨[2]⟩, none⟩)) ∧
    (VerifyInputPacket.OK ⟨⟨[1]⟩, 0, ⟨5, ⟨[3]⟩⟩, none⟩ ∧
      decode 8 (WPacket.verifyInput ⟨⟨[1]⟩, 0, ⟨5, ⟨[3]⟩⟩, none⟩).serialize
        = some (WPacket.verifyInput ⟨⟨[1]⟩, 0, ⟨5, ⟨[3]⟩⟩, none⟩)) ∧
    (decode 17 (WPacket.mineResult ⟨-1⟩).serialize
      = some (WPacket.mineResult ⟨-1⟩)) ∧
    (MinePacket.OK ⟨List.replicate 80 7, List.replicate 32 9, -1, -1⟩ ∧
      decode 16 (WPacket.mine
          ⟨List.replicate 80 7, List.replicate 32 9, -1, -1⟩).serialize
        = some (WPacket.mine
            ⟨List.replicate 80 7, List.replicate 32 9, 2 ^ 32 - 1,
              2 ^ 32 - 1⟩)) :=
  ⟨⟨by decide, sentinel_roundtrip_amended.1 ⟨⟨[1]⟩, ⟨[2]⟩, none⟩
      (by decide) rfl⟩,
    ⟨by decide, sentinel_roundtrip_amended.2.1 ⟨⟨[1]⟩, 0, ⟨5, ⟨[3]⟩⟩, none⟩
      (by decide) rfl⟩,
    sentinel_roundtrip_amended.2.2.1 ⟨-1⟩ rfl,
    ⟨by decide, sentinel_roundtrip_amended.2.2.2
      ⟨List.replicate 80 7, List.replicate 32 9, -1, -1⟩
      (by decide) rfl rfl⟩⟩

/-- Claim C8 (implicit): no fromRaw checks that the whole input buffer was
consumed, so decoding a valid serialization with any extra bytes appended
succeeds and returns the same packet as decoding the exact serialization;
trailing data is silently ignored. -/
theorem trailing_bytes_ignored (p : WPacket) (hOK : p.OK) (extra : Bytes) :
    decode p.cmd (p.serialize ++ extra) = decode p.cmd p.serialize ∧
      (decode p.cmd p.serialize).isSome := by
  cases p with
  | event q =>
      have h1 := eventPacket_consume q hOK extra
      have h2 := eventPacket_consume q hOK []
      rw [List.append_nil] at h2
      exact ⟨by simp [decode, WPacket.cmd, WPacket.serialize, h1, h2],
        by simp [decode, WPacket.cmd, WPacket.serialize, h2]⟩
  | log q =>
      have h1 := logPacket_consume q hOK extra
      have h2 := logPacket_consume q hOK []
      rw [List.append_nil] at h2
      exact ⟨by simp [decode, WPacket.cmd, WPacket.serialize, h1, h2],
        by simp [decode, WPacket.cmd, WPacket.serialize, h2]⟩
  | error q =>
      have h1 := errorPacket_consume q hOK extra
      have h2 := errorPacket_consume q hOK []
      rw [List.append_nil] at h2
      exact ⟨by simp [decode, WPacket.cmd, WPacket.serialize, h1, h2],
        by simp [decode, WPacket.cmd, WPacket.serialize, h2]⟩
  | errorResult q =>
      have h1 := errorResultPacket_consume q hOK extra
      have h2 := errorResultPacket_consume q hOK []
      rw [List.append_nil] at h2
      exact ⟨by simp [decode, WPacket.cmd, WPacket.serialize, h1, h2],
        by simp [decode, WPacket.cmd, WPacket.serialize, h2]⟩
  | verify q =>
      have h1 := verifyPacket_consume_any q hOK extra
      have h2 := verifyPacket_consume_any q hOK []
      rw [List.append_nil] at h2
      exact ⟨by simp [decode, WPacket.cmd, WPacket.serialize, h1, h2],
        by simp [decode, WPacket.cmd, WPacket.serialize, h2]⟩
  | verifyResult q =>
      have h1 := verifyResultPacket_consume q extra
      have h2 := verifyResultPacket_consume q []
      rw [List.append_nil] at h2
      exact ⟨by simp [decode, WPacket.cmd, WPacket.serialize, h1, h2],
        by simp [decode, WPacket.cmd, WPacket.serialize, h2]⟩
  | sign q =>
      have h1 := signPacket_consume q hOK extra
      have h2 := signPacket_consume q hOK []
      rw [List.append_nil] at h2
      exact ⟨by simp [decode, WPacket.cmd, WPacket.serialize, h1, h2],
        by simp [decode, WPacket.cmd, WPacket.serialize, h2]⟩
  | signResult q =>
      have h1 := signResultPacket_consume q hOK extra
      have h2 := signResultPacket_consume q hOK []
      rw [List.append_nil] at h2
      exact ⟨by simp [decode, WPacket.cmd, WPacket.serialize, h1, h2],
        by simp [decode, WPacket.cmd, WPacket.serialize, h2]⟩
  | verifyInput q =>
      have h1 := verifyInputPacket_consume_any q hOK extra
      have h2 := verifyInputPacket_consume_any q hOK []
      rw [List.append_nil] at h2
      exact ⟨by simp [decode, WPacket.cmd, WPacket.serialize, h1, h2],
        by simp [decode, WPacket.cmd, WPacket.serialize, h2]⟩
  | verifyInputResult q =>
      have h1 := verifyInputResultPacket_consume q extra
      have h2 := verifyInputResultPacket_consume q []
      rw [List.append_nil] at h2
      exact ⟨by simp [decode, WPacket.cmd, WPacket.serialize, h1, h2],
        by simp [decode, WPacket.cmd, WPacket.serialize, h2]⟩
  | signInput q =>
      have h1 := signInputPacket_consume q hOK extra
      have h2 := signInputPacket_consume q hOK []
      rw [List.append_nil] at h2
      exact ⟨by simp [decode, WPacket.cmd, WPacket.serialize, h1, h2],
        by simp [decode, WPacket.cmd, WPacket.serialize, h2]⟩
  | signInputResult q =>
      have h1 := signInputResultPacket_consume q hOK extra
      have h2 := signInputResultPacket_consume q hOK []
      rw [List.append_nil] at h2
      exact ⟨by simp [decode, WPacket.cmd, WPacket.serialize, h1, h2],
        by simp [decode, WPacket.cmd, WPacket.serialize, h2]⟩
  | ecVerify q =>
      have h1 := ecVerifyPacket_consume q hOK extra
      have h2 := ecVerifyPacket_consume q hOK []
      rw [List.append_nil] at h2
      exact ⟨by simp [decode, WPacket.cmd, WPacket.serialize, h1, h2],
        by simp [decode, WPacket.cmd, WPacket.serialize, h2]⟩
  | ecVerifyResult q =>
      have h1 := ecVerifyResultPacket_consume q extra
      have h2 := ecVerifyResultPacket_consume q []
      rw [List.append_nil] at h2
      exact ⟨by simp [decode, WPacket.cmd, WPacket.serialize, h1, h2],
        by simp [decode, WPacket.cmd, WPacket.serialize, h2]⟩
  | ecSign q =>
      have h1 := ecSignPacket_consume q hOK extra
      have h2 := ecSignPacket_consume q hOK []
      rw [List.append_nil] at h2
      exact ⟨by simp [decode, WPacket.cmd, WPacket.serialize, h1, h2],
        by simp [decode, WPacket.cmd, WPacket.serialize, h2]⟩
  | ecSignResult q =>
      have h1 := ecSignResultPacket_consume q hOK extra
      have h2 := ecSignResultPacket_consume q hOK []
      rw [List.append_nil] at h2
      exact ⟨by simp [decode, WPacket.cmd, WPacket.serialize, h1, h2],
        by simp [decode, WPacket.cmd, WPacket.serialize, h2]⟩
  | mine q =>
      have h1 := minePacket_consume q hOK extra
      have h2 := minePacket_consume q hOK []
      rw [List.append_nil] at h2
      exact ⟨by simp [decode, WPacket.cmd, WPacket.serialize, h1, h2],
        by simp [decode, WPacket.cmd, WPacket.serialize, h2]⟩
  | mineResult q =>
      have h1 := mineResultPacket_consume q extra
      have h2 := mineResultPacket_consume q []
      rw [List.append_nil] at h2
      exact ⟨by simp [decode, WPacket.cmd, WPacket.serialize, h1, h2],
        by simp [decode, WPacket.cmd, WPacket.serialize, h2]⟩
  | scrypt q =>
      have h1 := scryptPacket_consume q hOK extra
      have h2 := scryptPacket_consume q hOK []
      rw [List.append_nil] at h2
      exact ⟨by simp [decode, WPacket.cmd, WPacket.serialize, h1, h2],
        by simp [decode, WPacket.cmd, WPacket.serialize, h2]⟩
  | scryptResult q =>
      have h1 := scryptResultPacket_consume q hOK extra
      have h2 := scryptResultPacket_consume q hOK []
      rw [List.append_nil] at h2
      exact ⟨by simp [decode, WPacket.cmd, WPacket.serialize, h1, h2],
        by simp [decode, WPacket.cmd, WPacket.serialize, h2]⟩

/-- Witness for claim C8 at a concrete EventPacket with two extra bytes. -/
theorem trailing_bytes_ignored_witness :
    (WPacket.event ⟨[91, 93]⟩).OK ∧
      decode (WPacket.event ⟨[91, 93]⟩).cmd
          ((WPacket.event ⟨[91, 93]⟩).serialize ++ [7, 8])
        = decode (WPacket.event ⟨[91, 93]⟩).cmd
            (WPacket.event ⟨[91, 93]⟩).serialize ∧
      (decode (WPacket.event ⟨[91, 93]⟩).cmd
        (WPacket.event ⟨[91, 93]⟩).serialize).isSome :=
  ⟨by decide, (trailing_bytes_ignored _ (by decide) [7, 8]).1,
    (trailing_bytes_ignored _ (by decide) [7, 8]).2⟩

/-- Claim C9 (implicit): the boolean result decoders compare the read byte
with 1 (value = readU8() === 1), so a one-byte value b decodes to true
exactly when b equals 1, and every other byte value decodes to false
without raising any error, for VerifyResultPacket,
VerifyInputResultPacket, ECVerifyResultPacket and the success flag of
SignInputResultPacket. -/
theorem boolean_byte_decoding :
    (∀ (b : Nat) (rest : Bytes),
      VerifyResultPacket.fromReader (b :: rest) = some (⟨b == 1⟩, rest)) ∧
    (∀ (b : Nat) (rest : Bytes),
      VerifyInputResultPacket.fromReader (b :: rest)
        = some (⟨b == 1⟩, rest)) ∧
    (∀ (b : Nat) (rest : Bytes),
      ECVerifyResultPacket.fromReader (b :: rest) = some (⟨b == 1⟩, rest)) ∧
    (∀ (b : Nat) (s : Script) (w : Witness) (rest : Bytes), s.OK → w.OK →
      SignInputResultPacket.fromReader
          (b :: (s.toWriter ++ (w.toWriter ++ rest)))
        = some (⟨b == 1, s, w⟩, rest)) ∧
    ∀ b : Nat, (b == 1) = true ↔ b = 1 := by
  refine ⟨?_, ?_, ?_, ?_, ?_⟩
  · intro b rest
    simp [VerifyResultPacket.fromReader, readU8, readULE, readBytes,
      natOfLE]
  · intro b rest
    simp [VerifyInputResultPacket.fromReader, readU8, readULE, readBytes,
      natOfLE]
  · intro b rest
    simp [ECVerifyResultPacket.fromReader, readU8, readULE, readBytes,
      natOfLE]
  · intro b s w rest hs hw
    have h1 : readU8 (b :: (s.toWriter ++ (w.toWriter ++ rest)))
        = some (b, s.toWriter ++ (w.toWriter ++ rest)) := by
      simp [readU8, readULE, readBytes, natOfLE]
    simp [SignInputResultPacket.fromReader, h1, script_consume s hs,
      witness_consume w hw]
  · intro b
    simp

/-- Witness for claim C9: the byte 2 decodes to false in a concrete
SignInputResultPacket, with the hypotheses discharged concretely. -/
theorem boolean_byte_decoding_witness :
    Script.OK ⟨[]⟩ ∧ Witness.OK ⟨[]⟩ ∧
      SignInputResultPacket.fromReader
          (2 :: (Script.toWriter ⟨[]⟩ ++ (Witness.toWriter ⟨[]⟩ ++ [])))
        = some (⟨(2 : Nat) == 1, ⟨[]⟩, ⟨[]⟩⟩, []) :=
  ⟨by decide, by decide,
    boolean_byte_decoding.2.2.2.1 2 ⟨[]⟩ ⟨[]⟩ [] (by decide) (by decide)⟩

/-- Claim C10 (implicit): Error and ErrorResult serialization writes the
type tag as the empty string when the wrapped error has no type (the
writer coerces an absent or falsy type to the empty string), and decoding
always yields present string-valued message, stack and type fields,
never an absent one: any successful decode has type = some text, and
round-tripping an error with absent type yields the empty-string type. -/
theorem error_type_coercion :
    (∀ m s : Bytes, ErrorPacket.toWriter ⟨⟨m, s, none⟩⟩
        = ErrorPacket.toWriter ⟨⟨m, s, some []⟩⟩) ∧
    (∀ m s : Bytes, ErrorResultPacket.toWriter ⟨⟨m, s, none⟩⟩
        = ErrorResultPacket.toWriter ⟨⟨m, s, some []⟩⟩) ∧
    (∀ (data : Bytes) (p : ErrorPacket) (rest : Bytes),
      ErrorPacket.fromReader data = some (p, rest) →
        p.error.type.isSome) ∧
    (∀ (data : Bytes) (p : ErrorResultPacket) (rest : Bytes),
      ErrorResultPacket.fromReader data = some (p, rest) →
        p.error.type.isSome) ∧
    (∀ p : ErrorPacket, p.OK → ErrorPacket.fromReader p.toWriter
        = some (⟨⟨p.error.message, p.error.stack, some p.error.typeText⟩⟩,
            [])) ∧
    ∀ p : ErrorResultPacket, p.OK →
      ErrorResultPacket.fromReader p.toWriter
        = some (⟨⟨p.error.message, p.error.stack, some p.error.typeText⟩⟩,
            []) := by
  refine ⟨?_, ?_, ?_, ?_, ?_, ?_⟩
  · intro m s
    rfl
  · intro m s
    rfl
  · intro data p rest h
    unfold ErrorPacket.fromReader at h
    rw [Option.bind_eq_some] at h
    obtain ⟨m2, hm, h⟩ := h
    rw [Option.bind_eq_some] at h
    obtain ⟨s2, hs2, h⟩ := h
    rw [Option.map_eq_some'] at h
    obtain ⟨t2, ht, heq⟩ := h
    have hp : (⟨⟨m2.1, s2.1, some t2.1⟩⟩ : ErrorPacket) = p := by
      have h2 := congrArg Prod.fst heq
      simpa using h2
    rw [← hp]
    rfl
  · intro data p rest h
    unfold ErrorResultPacket.fromReader at h
    rw [Option.bind_eq_some] at h
    obtain ⟨m2, hm, h⟩ := h
    rw [Option.bind_eq_some] at h
    obtain ⟨s2, hs2, h⟩ := h
    rw [Option.map_eq_some'] at h
    obtain ⟨t2, ht, heq⟩ := h
    have hp : (⟨⟨m2.1, s2.1, some t2.1⟩⟩ : ErrorResultPacket) = p := by
      have h2 := congrArg Prod.fst heq
      simpa using h2
    rw [← hp]
    rfl
  · intro p hOK
    have hc := errorPacket_consume p hOK []
    rw [List.append_nil] at hc
    exact hc
  · intro p hOK
    have hc := errorResultPacket_consume p hOK []
    rw [List.append_nil] at hc
    exact hc

/-- Witness for claim C10: an error with absent type round-trips to the
empty-string type at a concrete input. -/
theorem error_type_coercion_witness :
    ErrorPacket.OK ⟨⟨[97], [98], none⟩⟩ ∧
      ErrorPacket.fromReader (ErrorPacket.toWriter ⟨⟨[97], [98], none⟩⟩)
        = some (⟨⟨[97], [98], some []⟩⟩, []) := by
  refine ⟨by decide, ?_⟩
  have h := error_type_coercion.2.2.2.2.1 ⟨⟨[97], [98], none⟩⟩ (by decide)
  simpa [ErrObj.typeText] using h

end Packets
